import Mathlib

/-!
Verification development for a small dashboard repository
(pages: "05_ subway.py", "06_ 지하철 노선.py", "07_ Dessert.py", "08_bakery_app.py").

The Python sources are shallowly embedded below: pure helper functions become
Lean functions, the pandas column operations become explicit list transforms
over a `Table` of `Cell`s, and the per-run script logic becomes pure functions
from the loaded data and the UI selections to an outcome value.  Machine floats
only occur in the sources as exact small integers scaled by rational factors;
they are modelled by exact integer/rational arithmetic, which agrees with the
float computation at every value the theorems mention.
-/

namespace Spec2Proof

/-! ## Character and string helpers shared by the embeddings -/

/-- The whitespace set of Python `str.strip` restricted to ASCII
(space, tab, newline, carriage return, vertical tab, form feed). -/
def isSpaceChar (c : Char) : Bool :=
  c = ' ' || c = '\t' || c = '\n' || c = '\r' || c = Char.ofNat 11 || c = Char.ofNat 12

def isDigitChar (c : Char) : Bool :=
  48 ≤ c.toNat && c.toNat ≤ 57

/-- Numeric value of a decimal digit character. -/
def digitVal (c : Char) : Nat :=
  c.toNat - 48

/-- Decimal digit character for `n % 10`. -/
def digitChar (n : Nat) : Char :=
  Char.ofNat (48 + n % 10)

/-- Value of a hexadecimal digit character, as in Python `int(c, 16)`
(accepting both cases); non-hex characters give 0. -/
def hexVal (c : Char) : Nat :=
  if '0' ≤ c && c ≤ '9' then c.toNat - 48
  else if 'a' ≤ c && c ≤ 'f' then c.toNat - 87
  else if 'A' ≤ c && c ≤ 'F' then c.toNat - 55
  else 0

/-- Whether `kw` occurs at the front of `l`: the character list `kw` occurs at the front of `l`. -/
def leadsWith : List Char → List Char → Bool
  | [], _ => true
  | _ :: _, [] => false
  | k :: ks, c :: cs => k = c && leadsWith ks cs

/-- Whether the character list `kw` occurs contiguously inside `l`,
Python `kw in l`. -/
def hasSub (kw : List Char) : List Char → Bool
  | [] => leadsWith kw []
  | c :: cs => leadsWith kw (c :: cs) || hasSub kw cs

/-- Python `kw in s` on strings. -/
def hasSubStr (kw s : String) : Bool :=
  hasSub kw.toList s.toList

/-- Lexicographic comparison of character lists by code point. -/
def charListLt : List Char → List Char → Bool
  | _, [] => false
  | [], _ :: _ => true
  | a :: as_, b :: bs =>
    if a.toNat < b.toNat then true
    else if b.toNat < a.toNat then false
    else charListLt as_ bs

/-- Python `s < t` on strings: lexicographic by code point — the order in
which pandas presents sorted group keys. -/
def strLtB (s t : String) : Bool :=
  charListLt s.toList t.toList

/-- Python `str.lower` (ASCII; all keywords in the sources are ASCII). -/
def lowerStr (s : String) : String :=
  String.mk (s.toList.map Char.toLower)

/-- Python `str.strip`: drop leading and trailing whitespace. -/
def stripStr (s : String) : String :=
  String.mk (((s.toList.dropWhile (fun c => isSpaceChar c)).reverse.dropWhile
    (fun c => isSpaceChar c)).reverse)

/-- Python `str.replace(",", "")`: remove every comma. -/
def removeCommas (s : String) : String :=
  String.mk (s.toList.filter (fun c => c ≠ ','))

/-- Python `str.split("\t")`: split at every tab, keeping empty parts. -/
def splitTab (cs : List Char) : List (List Char) :=
  cs.foldr
    (fun c acc =>
      if c = '\t' then [] :: acc
      else
        match acc with
        | [] => [[c]]
        | h :: t => (c :: h) :: t)
    [[]]

/-! ## "05_ subway.py": color utilities (lines 109-133) and the
colors preparation block (lines 200-207) -/

/-- Source `hex_to_rgb` (line 109): strip leading `#`, read three two-digit
hexadecimal channel values. -/
def hex_to_rgb (s : String) : Int × Int × Int :=
  let cs := s.toList.dropWhile (fun c => c = '#')
  (16 * hexVal (cs.getD 0 '0') + hexVal (cs.getD 1 '0'),
   16 * hexVal (cs.getD 2 '0') + hexVal (cs.getD 3 '0'),
   16 * hexVal (cs.getD 4 '0') + hexVal (cs.getD 5 '0'))

/-- Python `"%02x" % n`: lowercase hexadecimal, zero-padded to width 2. -/
def byte_hex (n : Nat) : String :=
  let ds := Nat.toDigits 16 n
  String.mk (List.replicate (2 - ds.length) '0' ++ ds)

/-- Source `rgb_to_hex` (line 113), the format `'#%02x%02x%02x' % rgb`.  The channels produced
by the gradient below are non-negative, matching Python's format on ints. -/
def rgb_to_hex (r g b : Int) : String :=
  "#" ++ byte_hex r.toNat ++ byte_hex g.toNat ++ byte_hex b.toNat

/-- One interpolated channel, `int(s + (e - s) * t)` with `t = i / d`:
the real-number product is modelled as the exact rational, and Python `int`
truncation toward zero is `Int.div` of the scaled numerator.  At the
endpoints `t = 0` and `t = 1` the float computation is exact, so the model
agrees with the source there. -/
def interp (s e : Int) (i d : Nat) : Int :=
  s + Int.tdiv ((e - s) * (i : Int)) (d : Int)

/-- Source `generate_gray_gradient` (lines 116-133): `n` colors from `start_hex` to
`end_hex` inclusive, with `t = i / max (n - 1) 1`. -/
def generate_gray_gradient (n : Nat) (start_hex end_hex : String) : List String :=
  let sRGB := hex_to_rgb start_hex
  let eRGB := hex_to_rgb end_hex
  let d := max (n - 1) 1
  (List.range n).map (fun i =>
    rgb_to_hex (interp sRGB.1 eRGB.1 i d) (interp sRGB.2.1 eRGB.2.1 i d)
      (interp sRGB.2.2 eRGB.2.2 i d))

/-- The colors preparation block (lines 200-207): empty for zero items,
otherwise black followed by a gray gradient over the remaining items. -/
def prepare_colors (n : Nat) : List String :=
  if 0 < n then
    "#000000" ::
      (if 0 < n - 1 then generate_gray_gradient (n - 1) "#2f2f2f" "#bfbfbf" else [])
  else []

/-! ## "05_ subway.py": filter, total, aggregation (lines 182-198)

A normalized, month-filtered row carries the canonical columns used by the
main panel.  `on` and `off` are the integers produced by the normalizer
(`Int`: the coercion preserves signs), the date is the parsed calendar date
(abstracted to a `Nat` code; only equality is used by the filter). -/

structure Row05 where
  date : Nat
  line : String
  station : String
  on_ : Int
  off_ : Int
deriving DecidableEq, Repr

/-- An aggregate row: entity key plus summed total. -/
structure AggRow where
  station : String
  total : Int
deriving DecidableEq, Repr

/-- Insert a station name into a sorted duplicate-free list of names:
pandas `groupby` with its default `sort=True` presents the group keys in
ascending order, independent of first appearance. -/
def insertKey (s : String) : List String → List String
  | [] => [s]
  | k :: ks =>
    if strLtB s k then s :: k :: ks
    else if s = k then k :: ks
    else k :: insertKey s ks

/-- The group keys of `df_sel.groupby("station")`: the distinct stations in
ascending order. -/
def sortedKeys (rows : List Row05) : List String :=
  rows.foldl (fun acc r => insertKey r.station acc) []

/-- The `total` column summed over the rows of one group, with
`total = on + off` per row (line 192). -/
def groupSum (rows : List Row05) (k : String) : Int :=
  ((rows.filter (fun r => r.station = k)).map (fun r => r.on_ + r.off_)).sum

/-- Source `agg` (line 197 before the sort): one row per group, keys in the
ascending order `groupby` yields, each with its summed total. -/
def agg05 (rows : List Row05) : List AggRow :=
  (sortedKeys rows).map (fun k => AggRow.mk k (groupSum rows k))

/-- One insertion step of a descending sort by total.  This realizes the
stable insertion-sort path numpy's introsort takes on small arrays — the
regime of the two-group counterexample below.  In general the program's
`sort_values` with its default `kind='quicksort'` leaves the relative order
of equal totals unspecified; only `IsSortValuesDesc` below is guaranteed. -/
def insertDesc (a : AggRow) : List AggRow → List AggRow
  | [] => [a]
  | b :: bs => if a.total < b.total then b :: insertDesc a bs else a :: b :: bs

/-- One admissible result of line 197's descending sort (the small-array
insertion-sort path, exact for the concrete tables in this file); the
universal statements quantify over every admissible result instead. -/
def sortDesc : List AggRow → List AggRow
  | [] => []
  | a :: as_ => insertDesc a (sortDesc as_)

/-- Source `agg_top` (lines 197-198): group, sum, sort descending, keep the
first `n` groups, with the sort resolved by the small-array insertion path
(exact for the concrete tables this function is applied to below). -/
def agg_top (rows : List Row05) (n : Nat) : List AggRow :=
  (sortDesc (agg05 rows)).take n

/-- What line 197's `sort_values("total", ascending=False)` guarantees for
its default `kind='quicksort'` (numpy introsort, documented as not stable):
some permutation of the group rows whose totals are non-increasing.  The
relative order of rows with equal totals is unspecified, so the sort is
modelled as this relation; `sortDesc` is one admissible result. -/
def IsSortValuesDesc (l sorted : List AggRow) : Prop :=
  List.Perm sorted l ∧ sorted.Pairwise (fun a b => b.total ≤ a.total)

/-- The filter of line 183: exact date and line match. -/
def selectRows (rows : List Row05) (selDate : Nat) (selLine : String) : List Row05 :=
  rows.filter (fun r => r.date = selDate ∧ r.line = selLine)

/-- Outcome of the main panel below line 182: an empty selection surfaces a
warning (`st.warning` plus `st.stop`) and nothing else is computed; otherwise
a chart specification with the aggregate table and its color list. -/
inductive Outcome05 where
  | emptyWarning
  | chart (top : List AggRow) (colors : List String)
deriving DecidableEq, Repr

/-- The per-run main-panel logic of "05_ subway.py" (lines 182-218) after
normalization: filter, guard against an empty selection, total, aggregate,
colors, chart. -/
def run05 (rows : List Row05) (selDate : Nat) (selLine : String) (n : Nat) : Outcome05 :=
  let sel := selectRows rows selDate selLine
  if sel = [] then Outcome05.emptyWarning
  else Outcome05.chart (agg_top sel n) (prepare_colors (agg_top sel n).length)

/-! ## "05_ subway.py": loader (lines 11-61)

`pd.read_csv` on one fixed source is abstracted as a pure oracle from the
attempted (encoding, separator) pair to a parse result; rewinding the stream
between attempts (lines 33-37) is what makes each attempt depend only on
that pair, so the oracle model captures it. -/

/-- The attempt order of `try_read_csv` (lines 16-20): encodings
`[None, "cp949", "utf-8"]` outer, separators `[None, "\t", ","]` inner. -/
def attempts : List (Option String × Option String) :=
  [(none, none), (none, some "\t"), (none, some ","),
   (some "cp949", none), (some "cp949", some "\t"), (some "cp949", some ","),
   (some "utf-8", none), (some "utf-8", some "\t"), (some "utf-8", some ",")]

/-- Source `try_read_csv` (lines 11-38): return the first successful parse, else
raise the last exception (`none` models the initial `last_exc = None`,
unreachable because the attempt list is non-empty). -/
def try_read_csv {E T : Type} (read : Option String → Option String → Except E T) :
    Except (Option E) T :=
  attempts.foldl
    (fun acc p =>
      match acc with
      | Except.ok t => Except.ok t
      | Except.error _ =>
        match read p.1 p.2 with
        | Except.ok t => Except.ok t
        | Except.error e => Except.error (some e))
    (Except.error none)

/-- The error taxonomy of `load_data_safe`: `dataUnreadable` is the
`RuntimeError` wrapping the last parse exception (lines 50, 59),
`sourceNotFound` the `FileNotFoundError` of line 55. -/
inductive LoadError (E : Type) where
  | dataUnreadable (last : Option E)
  | sourceNotFound
deriving DecidableEq

/-- Source `load_data_safe` (lines 40-61): prefer the uploaded stream; otherwise
require the default path to exist before any parse is attempted. -/
def load_data_safe {E T : Type} (pathExists : Bool)
    (readPath : Option String → Option String → Except E T)
    (uploaded : Option (Option String → Option String → Except E T)) :
    Except (LoadError E) T :=
  match uploaded with
  | some readUp =>
    match try_read_csv readUp with
    | Except.ok t => Except.ok t
    | Except.error le => Except.error (LoadError.dataUnreadable le)
  | none =>
    if pathExists then
      match try_read_csv readPath with
      | Except.ok t => Except.ok t
      | Except.error le => Except.error (LoadError.dataUnreadable le)
    else Except.error LoadError.sourceNotFound

/-! ## "05_ subway.py": `normalize_df` (lines 64-106)

A pandas frame is modelled as a list of column labels plus rows of cells.
Cells are strings, integers, calendar dates, or the missing sentinel `nan`
(collapsing numpy NaN, pandas NaT and Python None, whose stringified forms
all coerce back to the same missing value in the steps below).  Library
calls are modelled by their behaviour on the value domain of this pipeline:
`pd.to_datetime` by a parser for the compact `%Y%m%d` format, the ISO form
pandas itself prints for date columns, and the missing sentinels, everything
else coercing to `nan`; `pd.to_numeric` by the decimal grammar
`[sign] digits [. digits]` (with surrounding whitespace tolerated), other
strings coercing to `nan` and then to 0 by `fillna(0)`.  Where the real
code would raise on degenerate frames (duplicate canonical labels, or the
tab-split repair on a zero-row frame), the model stays total: it transforms
every column bearing the canonical label, and produces an empty frame. -/

inductive Cell where
  | str (s : String)
  | num (n : Int)
  | date (y m d : Nat)
  | nan
deriving DecidableEq, Repr

/-- Decimal digits of `m`, most significant first, as characters
(Python `str` on a non-negative int). -/
def natToStr (m : Nat) : String :=
  if m = 0 then "0" else String.mk (((Nat.digits 10 m).map digitChar).reverse)

/-- Python `str` on an int. -/
def intToStr (n : Int) : String :=
  if n < 0 then "-" ++ natToStr n.natAbs else natToStr n.natAbs

/-- Two-digit zero-padded decimal (correct for values up to 99, the range
of the month and day fields below). -/
def pad2 (n : Nat) : List Char :=
  [digitChar (n / 10), digitChar n]

/-- Four-digit zero-padded decimal (correct for values up to 9999, the range
of the year field below). -/
def pad4 (n : Nat) : List Char :=
  [digitChar (n / 1000), digitChar (n / 100), digitChar (n / 10), digitChar n]

/-- The ISO rendering `YYYY-MM-DD` pandas prints for a date column entry. -/
def renderISO (y m d : Nat) : String :=
  String.mk (pad4 y ++ '-' :: (pad2 m ++ '-' :: pad2 d))

/-- Python `str` of a cell, as produced by `astype(str)` on the columns below. -/
def cellToStr : Cell → String
  | Cell.str s => s
  | Cell.num n => intToStr n
  | Cell.date y m d => renderISO y m d
  | Cell.nan => "nan"

/-- Value of a most-significant-first digit-character list. -/
def digitsToNat (cs : List Char) : Nat :=
  cs.foldl (fun acc c => 10 * acc + digitVal c) 0

/-- The compact `%Y%m%d` parse: exactly eight digits with a plausible
month and day (pandas raises on impossible calendar fields, which the
enclosing `try` turns into the coercing fallback). -/
def parseCompact (s : String) : Option (Nat × Nat × Nat) :=
  match s.toList with
  | [y1, y2, y3, y4, m1, m2, d1, d2] =>
    if isDigitChar y1 && isDigitChar y2 && isDigitChar y3 && isDigitChar y4 &&
        isDigitChar m1 && isDigitChar m2 && isDigitChar d1 && isDigitChar d2 then
      let y := digitsToNat [y1, y2, y3, y4]
      let m := digitsToNat [m1, m2]
      let d := digitsToNat [d1, d2]
      if 1 ≤ m && m ≤ 12 && 1 ≤ d && d ≤ 31 then some (y, m, d) else none
    else none
  | _ => none

/-- The ISO `YYYY-MM-DD` parse accepted by the coercing fallback. -/
def parseISO (s : String) : Option (Nat × Nat × Nat) :=
  match s.toList with
  | [y1, y2, y3, y4, h1, m1, m2, h2, d1, d2] =>
    if h1 = '-' && h2 = '-' && isDigitChar y1 && isDigitChar y2 && isDigitChar y3 &&
        isDigitChar y4 && isDigitChar m1 && isDigitChar m2 && isDigitChar d1 &&
        isDigitChar d2 then
      let y := digitsToNat [y1, y2, y3, y4]
      let m := digitsToNat [m1, m2]
      let d := digitsToNat [d1, d2]
      if 1 ≤ m && m ≤ 12 && 1 ≤ d && d ≤ 31 then some (y, m, d) else none
    else none
  | _ => none

/-- One cell of the date conversion (lines 90-95).  The source first tries
the strict compact format on the whole column and falls back to
`errors="coerce"`; because the coercing parse tries the compact format
first, the try/except collapses to this single per-cell function. -/
def coerceDate (s : String) : Cell :=
  match parseCompact s with
  | some (y, m, d) => Cell.date y m d
  | none =>
    match parseISO s with
    | some (y, m, d) => Cell.date y m d
    | none => Cell.nan

/-- Strip surrounding whitespace from a character list. -/
def trimChars (l : List Char) : List Char :=
  ((l.dropWhile (fun c => isSpaceChar c)).reverse.dropWhile
    (fun c => isSpaceChar c)).reverse

/-- The characters after the optional sign. -/
def numBody (t : List Char) : List Char :=
  if t.headD ' ' = '-' || t.headD ' ' = '+' then t.tail else t

/-- The integer-part digits. -/
def numIntPart (t : List Char) : List Char :=
  (numBody t).takeWhile (fun c => isDigitChar c)

/-- What follows the integer part. -/
def numRest (t : List Char) : List Char :=
  (numBody t).dropWhile (fun c => isDigitChar c)

/-- Whether the trimmed characters form a number: digits with an optional
fractional part and at least one digit overall. -/
def numOk (t : List Char) : Bool :=
  if (numRest t).isEmpty then !(numIntPart t).isEmpty
  else if (numRest t).headD ' ' = '.' then
    (numRest t).tail.all (fun c => isDigitChar c) &&
      (!(numIntPart t).isEmpty || !(numRest t).tail.isEmpty)
  else false

/-- The numeric grammar on an already-trimmed character list: optional sign,
digits with an optional fractional part; the value is the signed integer
part (`astype(int)` truncates toward zero, so the fraction is dropped). -/
def parseNumChars (t : List Char) : Option Int :=
  if numOk t then
    some (if t.headD ' ' = '-' then -(digitsToNat (numIntPart t) : Int)
      else (digitsToNat (numIntPart t) : Int))
  else none

/-- Model of `pd.to_numeric` with coercing errors on one stringified value:
whitespace-tolerant optional sign, digits, optional fractional part; the
later `astype(int)` truncates toward zero, so the value is the signed
integer part.  Anything else is `none` (NaN). -/
def parseNumOpt (s : String) : Option Int :=
  parseNumChars (trimChars s.toList)

/-- The numeric coercion of lines 97-99 on one cell string:
strip thousands separators, parse, `fillna(0)`, truncate to int. -/
def coerceCount (s : String) : Int :=
  (parseNumOpt (removeCommas s)).getD 0

/-- The frame model: column labels plus rows of cells. -/
structure Table where
  cols : List String
  rows : List (List Cell)
deriving DecidableEq, Repr

/-- Line 66: `df.columns = [str(c).strip() for c in df.columns]`. -/
def stripStep (t : Table) : Table :=
  Table.mk (t.cols.map stripStr) t.rows

/-- Lines 69-72: if the frame collapsed to a single column whose label
contains a tab, split every row at tabs (padding short rows with the
missing sentinel, as `expand=True` does), promote the first row to the
header, and drop it from the data. -/
def splitStep (t : Table) : Table :=
  if t.cols.length = 1 && hasSubStr "\t" (t.cols.getD 0 "") then
    let parts := t.rows.map (fun r => splitTab (cellToStr (r.getD 0 Cell.nan)).toList)
    let width := parts.foldl (fun m p => max m p.length) 0
    let padded := parts.map (fun p =>
      p.map (fun cs => Cell.str (String.mk cs)) ++
        List.replicate (width - p.length) Cell.nan)
    Table.mk ((padded.headD []).map cellToStr) padded.tail
  else t

/-- The header-renaming rules of lines 75-87, first match wins. -/
def canonName (c : String) : String :=
  if hasSubStr "사용일자" c then "date"
  else if hasSubStr "노선명" c then "line"
  else if hasSubStr "역명" c || hasSubStr "역사명" c then "station"
  else if hasSubStr "승차" c && hasSubStr "승객" c then "on"
  else if hasSubStr "하차" c && hasSubStr "승객" c then "off"
  else c

/-- Line 87: `df = df.rename(columns=rename_map)`. -/
def renameStep (t : Table) : Table :=
  Table.mk (t.cols.map canonName) t.rows

/-- Apply `f` to every cell sitting under a column label satisfying `p`. -/
def mapNamedCols (p : String → Bool) (f : Cell → Cell) (t : Table) : Table :=
  Table.mk t.cols
    (t.rows.map (fun r => List.zipWith (fun name c => if p name then f c else c) t.cols r))

/-- Lines 90-95: stringify and parse the `date` column when present. -/
def dateStep (t : Table) : Table :=
  if t.cols.contains "date" then
    mapNamedCols (fun n => n = "date") (fun c => coerceDate (cellToStr c)) t
  else t

/-- Lines 97-99 for one of the count columns: stringify, strip commas,
coerce, fill missing with 0, truncate to int. -/
def numColStep (col : String) (t : Table) : Table :=
  if t.cols.contains col then
    mapNamedCols (fun n => n = col) (fun c => Cell.num (coerceCount (cellToStr c))) t
  else t

/-- Lines 101-104 for one of the string columns: `astype(str)`. -/
def strColStep (col : String) (t : Table) : Table :=
  if t.cols.contains col then
    mapNamedCols (fun n => n = col) (fun c => Cell.str (cellToStr c)) t
  else t

/-- Source `normalize_df` (lines 64-106): strip labels, repair tab-collapsed
frames, rename known headers, convert the date, count, and string columns. -/
def normalize_df (t : Table) : Table :=
  strColStep "line" (strColStep "station"
    (numColStep "off" (numColStep "on"
      (dateStep (renameStep (splitStep (stripStep t)))))))

/-! ## "06_ 지하철 노선.py": colors construction loop (lines 65-72) -/

/-- The Python f-string rendering rgb(s,s,s) for a gray shade `s`. -/
def grayRGB (s : Nat) : String :=
  "rgb(" ++ toString s ++ "," ++ toString s ++ "," ++ toString s ++ ")"

/-- Source `step = int((gray_end - gray_start) / 9)` with `gray_start = 50`,
`gray_end = 200`; the float quotient 150/9 truncates to 16. -/
def step06 : Nat :=
  (200 - 50) / 9

/-- The bar-color list of the second subway script (lines 65-72): it is built
unconditionally, independent of the number of rows in the top-10 table —
black, then nine grays `rgb(50 + 16 i, ...)` for `i = 0..8`. -/
def colors06 : List String :=
  "#000000" :: (List.range 9).map (fun i => grayRGB (50 + step06 * i))

/-! ## "07_ Dessert.py": `CATEGORY_KEYWORDS` (lines 22-30) and
`categorize_item` (lines 42-63).  The `CATEGORY_LABELS` lookup of
lines 32-40 is inlined as the literal label strings. -/

def dessert_sweet : List String :=
  ["cake", "muffin", "cookie", "brownie", "tart", "cheesecake", "custard", "sweet",
   "cream", "pudding", "macaron", "macaroon", "chocolate", "ganache", "parfait",
   "yogurt", "yoghurt", "mousse", "danish", "strudel", "pie", "scone"]

def dessert_crunch : List String :=
  ["cookie", "biscuit", "cracker", "granola", "crisp", "crunch", "nougat",
   "brittle", "almond", "wafer"]

def dessert_soft : List String :=
  ["mousse", "cream", "custard", "cheesecake", "yogurt", "yoghurt", "souffle",
   "panna", "mochi"]

def dessert_bread : List String :=
  ["bread", "baguette", "bun", "roll", "croissant", "bagel", "brioche", "toast",
   "danish", "panini", "focaccia", "ciabatta"]

def drink_coffee : List String :=
  ["coffee", "latte", "cappuccino", "espresso", "americano", "mocha", "macchiato"]

def drink_tea : List String :=
  ["tea", "green tea", "earl", "earl grey", "matcha", "chai", "oolong", "herbal"]

def drink_sweet : List String :=
  ["smoothie", "milkshake", "shake", "iced", "lemonade", "frappe", "juice",
   "soda", "cocoa", "hot chocolate", "chocolate"]

/-- Python `any(kw in name for kw in kws)`: some keyword of the list occurs in the
lowercased item name. -/
def kwMatch (kws : List String) (name : String) : Bool :=
  kws.any (fun kw => hasSubStr kw name)

/-- The first fallback rule list of line 51. -/
def fallbackDrink (name : String) : Bool :=
  kwMatch ["coffee", "latte", "tea", "juice", "chocolate", "hot chocolate", "iced"] name

/-- The second fallback rule list of line 57. -/
def fallbackBread (name : String) : Bool :=
  kwMatch ["bread", "bun", "roll", "croissant", "bagel", "brioche"] name

/-- The savory clue list of line 60. -/
def fallbackMeal (name : String) : Bool :=
  kwMatch ["sandwich", "salad", "soup", "salami", "ham", "cheese", "chicken",
    "beef", "egg", "omelette", "wrap"] name

/-- Source `categorize_item` (lines 42-63): lowercase the name, try the keyword
categories in the fixed priority order of line 46, then the fallback rules,
else `"Other"`. -/
def categorize_item (item : String) : String :=
  let name := lowerStr item
  if kwMatch dessert_bread name then "Dessert - Bread"
  else if kwMatch dessert_crunch name then "Dessert - Crunch"
  else if kwMatch dessert_soft name then "Dessert - Soft"
  else if kwMatch dessert_sweet name then "Dessert - Sweet"
  else if kwMatch drink_coffee name then "Beverage - Coffee"
  else if kwMatch drink_tea name then "Beverage - Tea"
  else if kwMatch drink_sweet name then "Beverage - Sweet"
  else if fallbackDrink name then
    (if hasSubStr "tea" name then "Beverage - Tea"
     else if hasSubStr "coffee" name then "Beverage - Coffee"
     else "Beverage - Sweet")
  else if fallbackBread name then "Dessert - Bread"
  else if fallbackMeal name then "Meal"
  else "Other"

/-- The keyword categories with their labels in the priority order of
line 46, as a lookup list. -/
def orderedCats : List (List String × String) :=
  [(dessert_bread, "Dessert - Bread"), (dessert_crunch, "Dessert - Crunch"),
   (dessert_soft, "Dessert - Soft"), (dessert_sweet, "Dessert - Sweet"),
   (drink_coffee, "Beverage - Coffee"), (drink_tea, "Beverage - Tea"),
   (drink_sweet, "Beverage - Sweet")]

/-- The label of the first keyword category matching the lowercased name,
if any: the specification of the keyword phase of `categorize_item`. -/
def firstMatchLabel (name : String) : Option String :=
  (orderedCats.find? (fun p => kwMatch p.1 name)).map (fun p => p.2)

/-! ## Frame discipline: "05_ subway.py" lines 182-198 and
"07_ Dessert.py" lines 89-91

Python-level aliasing is modelled with an explicit store of frames and
references into it: `df[mask].copy()` allocates a fresh entry,
`df_sel["total"] = ...` writes in place through the `df_sel` reference,
and the aggregation builds new values. -/

/-- A selected row optionally extended with the derived `total` column. -/
structure RowT where
  base : Row05
  total : Option Int
deriving DecidableEq, Repr

/-- Line 192, the in-place column assignment of on plus off,
on the referenced frame. -/
def addTotalCol (tv : List RowT) : List RowT :=
  tv.map (fun x => RowT.mk x.base (some (x.base.on_ + x.base.off_)))

/-- The main-panel block of lines 182-198 over an explicit store of frames:
filter-and-copy into a fresh entry, stop on an empty selection, add the
total column in place on the copy, derive the aggregate as a new value.
Returns the final store and the aggregate (if rendered). -/
def block05 (st : List (List RowT)) (rdf : Nat) (selDate : Nat) (selLine : String)
    (n : Nat) : List (List RowT) × Option (List AggRow) :=
  let dfv := st.getD rdf []
  let selv := dfv.filter (fun x => x.base.date = selDate ∧ x.base.line = selLine)
  let st1 := st ++ [selv]
  let rsel := st.length
  if selv.isEmpty then (st1, none)
  else
    let st2 := st1.set rsel (addTotalCol (st1.getD rsel []))
    (st2, some (agg_top ((st2.getD rsel []).map (fun x => x.base)) n))

/-- The dessert frame: item names plus the optional derived `Category`
column. -/
structure Table07 where
  items : List String
  category : Option (List String)
deriving DecidableEq, Repr

/-- Lines 89-91 of "07_ Dessert.py":
`if 'Category' not in df.columns: df['Category'] = df['Items'].apply(categorize_item)`. -/
def addCategoryCol (t : Table07) : Table07 :=
  match t.category with
  | some _ => t
  | none => Table07.mk t.items (some (t.items.map categorize_item))

/-! ## "08_bakery_app.py": `hour_to_block` (lines 62-76) -/

/-- Source `hour_to_block`: `none` models a NaN hour (`pd.isna`), `some h` the value
after `int(h)`. -/
def hour_to_block : Option Int → String
  | none => "Unknown"
  | some h =>
    if 6 ≤ h ∧ h ≤ 10 then "아침"
    else if 11 ≤ h ∧ h ≤ 14 then "점심"
    else if 15 ≤ h ∧ h ≤ 17 then "오후"
    else if 18 ≤ h ∧ h ≤ 21 then "저녁"
    else if 22 ≤ h ∨ h ≤ 2 then "야간"
    else "Other"

/-! ## Invariants of normalized tables, used to state and prove the
idempotence and column-typing properties -/

/-- A cell a normalized `date` column can hold: missing, or a date whose
fields fit the fixed-width ISO rendering and the parser range checks. -/
def DateOK (c : Cell) : Prop :=
  c = Cell.nan ∨ ∃ y m d, y ≤ 9999 ∧ 1 ≤ m ∧ m ≤ 12 ∧ 1 ≤ d ∧ d ≤ 31 ∧
    c = Cell.date y m d

/-- A cell a normalized count column can hold: an integer. -/
def NumOK (c : Cell) : Prop :=
  ∃ k, c = Cell.num k

/-- A cell a normalized string column can hold: a string. -/
def StrOK (c : Cell) : Prop :=
  ∃ s, c = Cell.str s

/-- Every cell sitting under a column labelled `name` satisfies `P`. -/
def CellsAt (t : Table) (name : String) (P : Cell → Prop) : Prop :=
  ∀ r ∈ t.rows, ∀ i, i < r.length → t.cols.getD i "" = name → P (r.getD i Cell.nan)

/-- No row is wider than the header. -/
def RowsFit (t : Table) : Prop :=
  ∀ r ∈ t.rows, r.length ≤ t.cols.length

/-- An oracle whose every parse attempt fails, for exercising the loader. -/
def failRead : Option String → Option String → Except Unit Unit :=
  fun _ _ => Except.error ()

/-! # Theorems -/

/-! ## C9: the second subway script's color list -/

/-- C9: in "06_ 지하철 노선.py" the bar-color list is built unconditionally —
independent of how many rows the top-10 table has — as exactly 10 entries:
black, then nine grays `rgb(50 + 16 i, ...)` for `i = 0..8`, ending at
`rgb(178,178,178)`; the step `int((200 - 50) / 9)` truncates to 16, so the
intended endpoint 200 is never reached. -/
theorem claim_C9 :
    colors06.length = 10 ∧
    colors06 = ["#000000", "rgb(50,50,50)", "rgb(66,66,66)", "rgb(82,82,82)",
      "rgb(98,98,98)", "rgb(114,114,114)", "rgb(130,130,130)", "rgb(146,146,146)",
      "rgb(162,162,162)", "rgb(178,178,178)"] ∧
    step06 = 16 ∧ colors06.getD 9 "" = grayRGB 178 ∧
    "rgb(200,200,200)" ∉ colors06 := by
  decide

/-! ## C10: `hour_to_block` is total with the claimed buckets -/

/-- C10: `hour_to_block` maps NaN to "Unknown", 6-10 to 아침, 11-14 to 점심,
15-17 to 오후, 18-21 to 저녁, hours ≥ 22 or ≤ 2 to 야간, and in particular
the uncovered hours 3, 4, 5 to "Other". -/
theorem claim_C10 :
    hour_to_block none = "Unknown" ∧
    (∀ h : Int, 6 ≤ h → h ≤ 10 → hour_to_block (some h) = "아침") ∧
    (∀ h : Int, 11 ≤ h → h ≤ 14 → hour_to_block (some h) = "점심") ∧
    (∀ h : Int, 15 ≤ h → h ≤ 17 → hour_to_block (some h) = "오후") ∧
    (∀ h : Int, 18 ≤ h → h ≤ 21 → hour_to_block (some h) = "저녁") ∧
    (∀ h : Int, 22 ≤ h ∨ h ≤ 2 → hour_to_block (some h) = "야간") ∧
    hour_to_block (some 3) = "Other" ∧ hour_to_block (some 4) = "Other" ∧
    hour_to_block (some 5) = "Other" := by
  refine ⟨rfl, ?_, ?_, ?_, ?_, ?_, by decide, by decide, by decide⟩
  · intro h h1 h2
    simp only [hour_to_block]
    rw [if_pos (by omega)]
  · intro h h1 h2
    simp only [hour_to_block]
    rw [if_neg (by omega), if_pos (by omega)]
  · intro h h1 h2
    simp only [hour_to_block]
    rw [if_neg (by omega), if_neg (by omega), if_pos (by omega)]
  · intro h h1 h2
    simp only [hour_to_block]
    rw [if_neg (by omega), if_neg (by omega), if_neg (by omega), if_pos (by omega)]
  · intro h h1
    simp only [hour_to_block]
    rw [if_neg (by omega), if_neg (by omega), if_neg (by omega), if_neg (by omega),
      if_pos (by omega)]

/-- Witness for C10 at concrete hours, one per bucket. -/
theorem claim_C10_witness :
    hour_to_block (some 7) = "아침" ∧ hour_to_block (some 12) = "점심" ∧
    hour_to_block (some 16) = "오후" ∧ hour_to_block (some 19) = "저녁" ∧
    hour_to_block (some 23) = "야간" ∧ hour_to_block (some 0) = "야간" :=
  ⟨claim_C10.2.1 7 (by norm_num) (by norm_num),
   claim_C10.2.2.1 12 (by norm_num) (by norm_num),
   claim_C10.2.2.2.1 16 (by norm_num) (by norm_num),
   claim_C10.2.2.2.2.1 19 (by norm_num) (by norm_num),
   claim_C10.2.2.2.2.2.1 23 (Or.inl (by norm_num)),
   claim_C10.2.2.2.2.2.1 0 (Or.inr (by norm_num))⟩

/-! ## C6: empty selections surface a warning, not an exception -/

/-- C6: whenever the date/line restriction of the main panel yields zero
rows, the run returns the `emptyWarning` outcome — an ordinary value, not an
exception — which carries no total, no aggregate and no chart; the remaining
pipeline (total, aggregation, colors, chart) is not executed. -/
theorem claim_C6 (rows : List Row05) (selDate : Nat) (selLine : String) (n : Nat)
    (h : selectRows rows selDate selLine = []) :
    run05 rows selDate selLine n = Outcome05.emptyWarning := by
  simp [run05, h]

/-- Witness for C6: a one-row table filtered on a different date. -/
theorem claim_C6_witness :
    run05 [Row05.mk 1 "L" "A" 4 1] 2 "L" 5 = Outcome05.emptyWarning :=
  claim_C6 [Row05.mk 1 "L" "A" 4 1] 2 "L" 5 (by decide)

/-! ## C8: `categorize_item` priority order -/

/-- C8: `categorize_item` tries the keyword categories in the fixed order
dessert_bread, dessert_crunch, dessert_soft, dessert_sweet, drink_coffee,
drink_tea, drink_sweet and returns the label of the first category with a
substring match; any name containing a bread keyword gives "Dessert - Bread"
even when sweet or drink keywords also match (e.g. "Croissant", "Toast",
"chocolate croissant"); a name matching no keyword list and no fallback rule
gives "Other". -/
theorem claim_C8 :
    (∀ item, (firstMatchLabel (lowerStr item)).isSome = true →
      categorize_item item = (firstMatchLabel (lowerStr item)).getD "") ∧
    (∀ item, kwMatch dessert_bread (lowerStr item) = true →
      categorize_item item = "Dessert - Bread") ∧
    (∀ item, kwMatch dessert_bread (lowerStr item) = false →
      kwMatch dessert_crunch (lowerStr item) = false →
      kwMatch dessert_soft (lowerStr item) = false →
      kwMatch dessert_sweet (lowerStr item) = false →
      kwMatch drink_coffee (lowerStr item) = false →
      kwMatch drink_tea (lowerStr item) = false →
      kwMatch drink_sweet (lowerStr item) = false →
      fallbackDrink (lowerStr item) = false →
      fallbackBread (lowerStr item) = false →
      fallbackMeal (lowerStr item) = false →
      categorize_item item = "Other") ∧
    categorize_item "Croissant" = "Dessert - Bread" ∧
    categorize_item "Toast" = "Dessert - Bread" ∧
    categorize_item "chocolate croissant" = "Dessert - Bread" := by
  refine ⟨?_, ?_, ?_, by decide, by decide, by decide⟩
  · intro item hsome
    by_cases h1 : kwMatch dessert_bread (lowerStr item) = true
    · simp [categorize_item, firstMatchLabel, orderedCats, h1]
    · by_cases h2 : kwMatch dessert_crunch (lowerStr item) = true
      · simp [categorize_item, firstMatchLabel, orderedCats, h1, h2]
      · by_cases h3 : kwMatch dessert_soft (lowerStr item) = true
        · simp [categorize_item, firstMatchLabel, orderedCats, h1, h2, h3]
        · by_cases h4 : kwMatch dessert_sweet (lowerStr item) = true
          · simp [categorize_item, firstMatchLabel, orderedCats, h1, h2, h3, h4]
          · by_cases h5 : kwMatch drink_coffee (lowerStr item) = true
            · simp [categorize_item, firstMatchLabel, orderedCats, h1, h2, h3, h4, h5]
            · by_cases h6 : kwMatch drink_tea (lowerStr item) = true
              · simp [categorize_item, firstMatchLabel, orderedCats, h1, h2, h3, h4, h5, h6]
              · by_cases h7 : kwMatch drink_sweet (lowerStr item) = true
                · simp [categorize_item, firstMatchLabel, orderedCats,
                    h1, h2, h3, h4, h5, h6, h7]
                · exfalso
                  simp [firstMatchLabel, orderedCats, h1, h2, h3, h4, h5, h6, h7] at hsome
  · intro item hb
    simp [categorize_item, hb]
  · intro item h1 h2 h3 h4 h5 h6 h7 hd hb hm
    simp [categorize_item, h1, h2, h3, h4, h5, h6, h7, hd, hb, hm]

/-- Witness for C8: concrete items exercising the keyword phase, the
bread-priority part, and the no-match part. -/
theorem claim_C8_witness :
    categorize_item "chocolate croissant" =
      (firstMatchLabel (lowerStr "chocolate croissant")).getD "" ∧
    categorize_item "Baguette" = "Dessert - Bread" ∧
    categorize_item "Widget" = "Other" :=
  ⟨claim_C8.1 "chocolate croissant" (by decide),
   claim_C8.2.1 "Baguette" (by decide),
   claim_C8.2.2.1 "Widget" (by decide) (by decide) (by decide) (by decide) (by decide)
     (by decide) (by decide) (by decide) (by decide) (by decide)⟩

/-! ## C4: loader attempt order and error taxonomy -/

/-- C4: `try_read_csv` tries the fixed (encoding, separator) pairs in order
(the first success is returned, starting from the default/default attempt);
when every attempt fails the raised error carries the last underlying parse
exception — the one from `("utf-8", ",")`, the final pair — and
`load_data_safe` wraps it as the data-unreadable error; when the default
path does not exist and no stream was supplied, the result is the
source-not-found error for every oracle, i.e. without attempting any
parse. -/
theorem claim_C4 (E T : Type) :
    (∀ read : Option String → Option String → Except E T, ∀ t,
      read none none = Except.ok t → try_read_csv read = Except.ok t) ∧
    (∀ read : Option String → Option String → Except E T, ∀ e t,
      read none none = Except.error e → read none (some "\t") = Except.ok t →
      try_read_csv read = Except.ok t) ∧
    (∀ read : Option String → Option String → Except E T,
      ∀ g : Option String → Option String → E,
      (∀ a b, read a b = Except.error (g a b)) →
      try_read_csv read = Except.error (some (g (some "utf-8") (some ",")))) ∧
    (∀ read : Option String → Option String → Except E T,
      ∀ g : Option String → Option String → E,
      (∀ a b, read a b = Except.error (g a b)) →
      load_data_safe true read (some read) =
        Except.error (LoadError.dataUnreadable (some (g (some "utf-8") (some ",")))) ∧
      load_data_safe true read none =
        Except.error (LoadError.dataUnreadable (some (g (some "utf-8") (some ","))))) ∧
    (∀ read : Option String → Option String → Except E T,
      load_data_safe false read none = Except.error LoadError.sourceNotFound) := by
  refine ⟨?_, ?_, ?_, ?_, ?_⟩
  · intro read t h
    simp [try_read_csv, attempts, h]
  · intro read e t h1 h2
    simp [try_read_csv, attempts, h1, h2]
  · intro read g h
    simp [try_read_csv, attempts, h]
  · intro read g h
    constructor
    · simp [load_data_safe, try_read_csv, attempts, h]
    · simp [load_data_safe, try_read_csv, attempts, h]
  · intro read
    simp [load_data_safe]

/-- Witness for C4: an oracle that fails on every attempt. -/
theorem claim_C4_witness :
    try_read_csv failRead = Except.error (some ()) ∧
    load_data_safe true failRead none =
      Except.error (LoadError.dataUnreadable (some ())) ∧
    load_data_safe false failRead none = Except.error LoadError.sourceNotFound :=
  ⟨(claim_C4 Unit Unit).2.2.1 failRead (fun _ _ => ()) (fun _ _ => rfl),
   ((claim_C4 Unit Unit).2.2.2.1 failRead (fun _ _ => ()) (fun _ _ => rfl)).2,
   (claim_C4 Unit Unit).2.2.2.2 failRead⟩

/-! ## C1: colorizer endpoints -/

theorem generate_gray_gradient_length (n : Nat) (sh eh : String) :
    (generate_gray_gradient n sh eh).length = n := by
  simp [generate_gray_gradient]

theorem generate_gray_gradient_getD (n : Nat) (sh eh : String) (i : Nat) (hi : i < n) :
    (generate_gray_gradient n sh eh).getD i "" =
      rgb_to_hex (interp (hex_to_rgb sh).1 (hex_to_rgb eh).1 i (max (n - 1) 1))
        (interp (hex_to_rgb sh).2.1 (hex_to_rgb eh).2.1 i (max (n - 1) 1))
        (interp (hex_to_rgb sh).2.2 (hex_to_rgb eh).2.2 i (max (n - 1) 1)) := by
  rw [List.getD_eq_getElem _ _ (by simpa [generate_gray_gradient] using hi)]
  simp [generate_gray_gradient]

theorem interp_zero (s e : Int) (d : Nat) : interp s e 0 d = s := by
  simp [interp]

theorem interp_last (s e : Int) (d : Nat) (hd : 0 < d) : interp s e d d = e := by
  unfold interp
  rw [Int.mul_tdiv_cancel _ (by exact_mod_cast hd.ne')]
  omega

/-- C1 counterexample: at item count N = 2 the color list is black followed
by the dark-gray endpoint, so the last color (index N-1) is not the
light-gray endpoint the claim asserts for every N ≥ 2. -/
theorem claim_C1_counterexample :
    prepare_colors 2 = ["#000000", "#2f2f2f"] ∧
    (prepare_colors 2).getD (2 - 1) "" ≠ "#bfbfbf" := by
  decide

/-- C1 amended: for every N ≥ 1 the color list has length N with the black
highlight first; for N ≥ 2 the second color is the dark-gray endpoint
`#2f2f2f`; and the last color is the light-gray endpoint `#bfbfbf` exactly
for N ≥ 3 (at N = 2 the single remaining color is the dark endpoint). -/
theorem claim_C1 (n : Nat) (h : 1 ≤ n) :
    (prepare_colors n).length = n ∧
    (prepare_colors n).getD 0 "" = "#000000" ∧
    (2 ≤ n → (prepare_colors n).getD 1 "" = "#2f2f2f") ∧
    (3 ≤ n → (prepare_colors n).getD (n - 1) "" = "#bfbfbf") := by
  refine ⟨?_, ?_, ?_, ?_⟩
  · by_cases h2 : 0 < n - 1
    · simp only [prepare_colors, if_pos (by omega : 0 < n), if_pos h2]
      simp [generate_gray_gradient_length]
      omega
    · simp only [prepare_colors, if_pos (by omega : 0 < n), if_neg h2]
      simp
      omega
  · simp only [prepare_colors, if_pos (by omega : 0 < n)]
    rfl
  · intro h2
    simp only [prepare_colors, if_pos (by omega : 0 < n), if_pos (by omega : 0 < n - 1)]
    have : (generate_gray_gradient (n - 1) "#2f2f2f" "#bfbfbf").getD 0 "" = "#2f2f2f" := by
      rw [generate_gray_gradient_getD (n - 1) _ _ 0 (by omega)]
      rw [show hex_to_rgb "#2f2f2f" = (47, 47, 47) from rfl]
      rw [show hex_to_rgb "#bfbfbf" = (191, 191, 191) from rfl]
      simp only [interp_zero]
      rfl
    simpa [List.getD_cons_succ] using this
  · intro h3
    simp only [prepare_colors, if_pos (by omega : 0 < n), if_pos (by omega : 0 < n - 1)]
    have hmax : max (n - 1 - 1) 1 = n - 2 := by omega
    set g := generate_gray_gradient (n - 1) "#2f2f2f" "#bfbfbf" with hg
    have hlast : g.getD (n - 2) "" = "#bfbfbf" := by
      rw [hg, generate_gray_gradient_getD (n - 1) _ _ (n - 2) (by omega)]
      rw [show hex_to_rgb "#2f2f2f" = (47, 47, 47) from rfl]
      rw [show hex_to_rgb "#bfbfbf" = (191, 191, 191) from rfl]
      rw [hmax]
      simp only [interp_last 47 191 (n - 2) (by omega : 0 < n - 2)]
      rfl
    have hidx : n - 1 = (n - 2) + 1 := by omega
    rw [hidx]
    simpa [List.getD_cons_succ] using hlast

/-- Witness for C1 at N = 4. -/
theorem claim_C1_witness :
    (prepare_colors 4).length = 4 ∧
    (prepare_colors 4).getD 0 "" = "#000000" ∧
    (prepare_colors 4).getD 1 "" = "#2f2f2f" ∧
    (prepare_colors 4).getD 3 "" = "#bfbfbf" :=
  ⟨(claim_C1 4 (by norm_num)).1, (claim_C1 4 (by norm_num)).2.1,
   (claim_C1 4 (by norm_num)).2.2.1 (by norm_num),
   (claim_C1 4 (by norm_num)).2.2.2 (by norm_num)⟩

/-! ## C7: frame discipline -/

/-- C7: the main-panel block leaves the normalized frame unchanged in the
store — the filter copies into a fresh entry and only that copy receives the
derived `total` column, while the aggregate is a freshly derived value; in
the dessert script, adding the derived `Category` column preserves the
existing items, never overwrites an existing category column, and only
appends the derived values. -/
theorem claim_C7 (st : List (List RowT)) (rdf : Nat) (selDate : Nat) (selLine : String)
    (n : Nat) (h : rdf < st.length) :
    (block05 st rdf selDate selLine n).1.getD rdf [] = st.getD rdf [] ∧
    (∀ t : Table07, (addCategoryCol t).items = t.items) ∧
    (∀ t : Table07, ∀ c, t.category = some c → addCategoryCol t = t) ∧
    (∀ t : Table07, t.category = none →
      (addCategoryCol t).category = some (t.items.map categorize_item)) := by
  refine ⟨?_, ?_, ?_, ?_⟩
  · simp only [block05]
    split
    · exact List.getD_append _ _ _ _ h
    · rw [List.getD_eq_getElem _ _
        (by simp only [List.length_set, List.length_append]; omega)]
      rw [List.getElem_set_ne (by omega)]
      rw [List.getElem_append_left h]
      rw [List.getD_eq_getElem _ _ h]
  · intro t
    cases ht : t.category <;> simp [addCategoryCol, ht]
  · intro t c ht
    simp [addCategoryCol, ht]
  · intro t ht
    simp [addCategoryCol, ht]

/-- Witness for C7 on a one-frame store. -/
theorem claim_C7_witness :
    (block05 [[RowT.mk (Row05.mk 1 "L" "A" 4 1) none]] 0 1 "L" 5).1.getD 0 [] =
      [[RowT.mk (Row05.mk 1 "L" "A" 4 1) none]].getD 0 [] ∧
    (addCategoryCol (Table07.mk ["Croissant"] none)).items = ["Croissant"] :=
  ⟨(claim_C7 [[RowT.mk (Row05.mk 1 "L" "A" 4 1) none]] 0 1 "L" 5 (by norm_num)).1,
   (claim_C7 [[RowT.mk (Row05.mk 1 "L" "A" 4 1) none]] 0 1 "L" 5 (by norm_num)).2.1
     (Table07.mk ["Croissant"] none)⟩

/-! ## C2: aggregation order and truncation -/

theorem insertDesc_perm (a : AggRow) (l : List AggRow) :
    List.Perm (insertDesc a l) (a :: l) := by
  induction l with
  | nil => exact List.Perm.refl _
  | cons b bs ih =>
    simp only [insertDesc]
    split
    · exact (ih.cons b).trans (List.Perm.swap a b bs)
    · exact List.Perm.refl _

theorem sortDesc_perm (l : List AggRow) : List.Perm (sortDesc l) l := by
  induction l with
  | nil => exact List.Perm.refl _
  | cons a as_ ih => exact (insertDesc_perm a (sortDesc as_)).trans (ih.cons a)

theorem insertDesc_pairwise_desc (a : AggRow) (l : List AggRow)
    (hl : l.Pairwise (fun x y => y.total ≤ x.total)) :
    (insertDesc a l).Pairwise (fun x y => y.total ≤ x.total) := by
  induction l with
  | nil => simp [insertDesc]
  | cons b bs ih =>
    rcases List.pairwise_cons.mp hl with ⟨hb, hbs⟩
    simp only [insertDesc]
    split
    · rename_i hab
      refine List.pairwise_cons.mpr ⟨?_, ih hbs⟩
      intro c hc
      rcases List.mem_cons.mp ((insertDesc_perm a bs).mem_iff.mp hc) with rfl | hcb
      · omega
      · exact hb c hcb
    · rename_i hab
      refine List.pairwise_cons.mpr ⟨?_, hl⟩
      intro c hc
      rcases List.mem_cons.mp hc with rfl | hcbs
      · omega
      · have hbc := hb c hcbs
        omega

theorem sortDesc_pairwise_desc (l : List AggRow) :
    (sortDesc l).Pairwise (fun x y => y.total ≤ x.total) := by
  induction l with
  | nil => simp [sortDesc]
  | cons a as_ ih => exact insertDesc_pairwise_desc a _ ih

theorem sortDesc_isSortValuesDesc (l : List AggRow) :
    IsSortValuesDesc l (sortDesc l) :=
  ⟨sortDesc_perm l, sortDesc_pairwise_desc l⟩

/-- C2 counterexample: two rows with tied totals arriving in the first-seen
order B, A.  The claimed stable first-seen ordering would return B before A,
but the code groups with keys sorted ascending and then sorts by total only;
at two tied groups numpy introsort runs its stable small-array
insertion-sort path, so the code returns A before B. -/
theorem claim_C2_counterexample :
    agg_top [Row05.mk 1 "L" "B" 2 3, Row05.mk 1 "L" "A" 4 1] 5 =
      [AggRow.mk "A" 5, AggRow.mk "B" 5] ∧
    [AggRow.mk "A" 5, AggRow.mk "B" 5] ≠ [AggRow.mk "B" 5, AggRow.mk "A" 5] := by
  decide

/-- C2 amended: the aggregator groups rows by station with group keys in
ascending order (pandas `groupby` default), sums the per-row totals per
group, and sorts the groups by total descending — the order among groups
with equal totals is unspecified (the default quicksort is not stable) and
in particular is not the first-seen insertion order of the input rows.  For
every admissible result of that sort, taking the first `n` rows returns
exactly `min n (number of groups)` groups, their totals are non-increasing,
and every returned row is a real group carrying its exact group sum. -/
theorem claim_C2 (rows : List Row05) (n : Nat) (h : 1 ≤ n)
    (sorted : List AggRow) (hs : IsSortValuesDesc (agg05 rows) sorted) :
    (sorted.take n).length = min n (sortedKeys rows).length ∧
    (sorted.take n).Pairwise (fun a b => b.total ≤ a.total) ∧
    (∀ a ∈ sorted.take n,
      a.station ∈ sortedKeys rows ∧ a.total = groupSum rows a.station) := by
  obtain ⟨hperm, hsorted⟩ := hs
  refine ⟨?_, ?_, ?_⟩
  · rw [List.length_take, hperm.length_eq]
    simp [agg05]
  · exact List.Pairwise.sublist (List.take_sublist _ _) hsorted
  · intro a ha
    have ha2 : a ∈ sorted := List.take_subset _ _ ha
    have ha3 : a ∈ agg05 rows := hperm.mem_iff.mp ha2
    simp only [agg05, List.mem_map] at ha3
    rcases ha3 with ⟨k, hk, rfl⟩
    exact ⟨hk, rfl⟩

/-- Witness for C2 on a concrete two-row table with top-N 1, resolving the
sort with the insertion-sort path (one admissible result). -/
theorem claim_C2_witness :
    ((sortDesc (agg05 [Row05.mk 1 "L" "B" 2 3, Row05.mk 1 "L" "A" 4 1])).take 1).length =
      min 1 (sortedKeys [Row05.mk 1 "L" "B" 2 3, Row05.mk 1 "L" "A" 4 1]).length ∧
    ((sortDesc (agg05 [Row05.mk 1 "L" "B" 2 3, Row05.mk 1 "L" "A" 4 1])).take 1).Pairwise
      (fun a b => b.total ≤ a.total) :=
  ⟨(claim_C2 [Row05.mk 1 "L" "B" 2 3, Row05.mk 1 "L" "A" 4 1] 1 (by norm_num)
      (sortDesc (agg05 [Row05.mk 1 "L" "B" 2 3, Row05.mk 1 "L" "A" 4 1]))
      (sortDesc_isSortValuesDesc (agg05 [Row05.mk 1 "L" "B" 2 3, Row05.mk 1 "L" "A" 4 1]))).1,
   (claim_C2 [Row05.mk 1 "L" "B" 2 3, Row05.mk 1 "L" "A" 4 1] 1 (by norm_num)
      (sortDesc (agg05 [Row05.mk 1 "L" "B" 2 3, Row05.mk 1 "L" "A" 4 1]))
      (sortDesc_isSortValuesDesc (agg05 [Row05.mk 1 "L" "B" 2 3, Row05.mk 1 "L" "A" 4 1]))).2.1⟩


/-! ## Character, digit and parser lemmas for the normalizer -/

theorem toNat_digitChar (k : Nat) : (digitChar k).toNat = 48 + k % 10 := by
  have h10 : k % 10 < 10 := Nat.mod_lt _ (by norm_num)
  suffices hgen : ∀ r, r < 10 → (Char.ofNat (48 + r)).toNat = 48 + r by
    simpa [digitChar] using hgen (k % 10) h10
  intro r hr
  interval_cases r <;> rfl

theorem digitVal_digitChar (k : Nat) : digitVal (digitChar k) = k % 10 := by
  simp [digitVal, toNat_digitChar]

theorem isDigitChar_digitChar (k : Nat) : isDigitChar (digitChar k) = true := by
  have h10 : k % 10 < 10 := Nat.mod_lt _ (by norm_num)
  simp only [isDigitChar, toNat_digitChar, Bool.and_eq_true, decide_eq_true_eq]
  omega

theorem isSpaceChar_digitChar (k : Nat) : isSpaceChar (digitChar k) = false := by
  have h10 : k % 10 < 10 := Nat.mod_lt _ (by norm_num)
  suffices hgen : ∀ r, r < 10 → isSpaceChar (Char.ofNat (48 + r)) = false by
    simpa [digitChar] using hgen (k % 10) h10
  intro r hr
  interval_cases r <;> rfl

theorem digitChar_ne_dash (k : Nat) : digitChar k ≠ '-' := by
  have h10 : k % 10 < 10 := Nat.mod_lt _ (by norm_num)
  suffices hgen : ∀ r, r < 10 → Char.ofNat (48 + r) ≠ '-' by
    simpa [digitChar] using hgen (k % 10) h10
  intro r hr
  interval_cases r <;> decide

theorem digitChar_ne_plus (k : Nat) : digitChar k ≠ '+' := by
  have h10 : k % 10 < 10 := Nat.mod_lt _ (by norm_num)
  suffices hgen : ∀ r, r < 10 → Char.ofNat (48 + r) ≠ '+' by
    simpa [digitChar] using hgen (k % 10) h10
  intro r hr
  interval_cases r <;> decide

theorem digitChar_ne_comma (k : Nat) : digitChar k ≠ ',' := by
  have h10 : k % 10 < 10 := Nat.mod_lt _ (by norm_num)
  suffices hgen : ∀ r, r < 10 → Char.ofNat (48 + r) ≠ ',' by
    simpa [digitChar] using hgen (k % 10) h10
  intro r hr
  interval_cases r <;> decide

theorem isDigitChar_toNat (c : Char) (h : isDigitChar c = true) :
    48 ≤ c.toNat ∧ c.toNat ≤ 57 := by
  simpa only [isDigitChar, Bool.and_eq_true, decide_eq_true_eq] using h

theorem digitVal_le (c : Char) (h : isDigitChar c = true) : digitVal c ≤ 9 := by
  have h2 := isDigitChar_toNat c h
  simp only [digitVal]
  omega

theorem mapSelf {α : Type} (f : α → α) :
    ∀ l : List α, (∀ x ∈ l, f x = x) → l.map f = l := by
  intro l h
  induction l with
  | nil => rfl
  | cons x xs ih =>
    simp only [List.map_cons]
    rw [h x (by simp), ih (fun y hy => h y (by simp [hy]))]

theorem dropWhile_all_neg {α : Type} (p : α → Bool) :
    ∀ l : List α, (∀ c ∈ l, p c = false) → l.dropWhile p = l := by
  intro l h
  cases l with
  | nil => rfl
  | cons c cs =>
    rw [List.dropWhile_cons]
    simp [h c (by simp)]

theorem dropWhile_all_pos {α : Type} (p : α → Bool) :
    ∀ l : List α, (∀ c ∈ l, p c = true) → l.dropWhile p = [] := by
  intro l h
  induction l with
  | nil => rfl
  | cons c cs ih =>
    rw [List.dropWhile_cons]
    simp only [h c (by simp), if_true]
    exact ih (fun y hy => h y (by simp [hy]))

theorem takeWhile_all_pos {α : Type} (p : α → Bool) :
    ∀ l : List α, (∀ c ∈ l, p c = true) → l.takeWhile p = l := by
  intro l h
  induction l with
  | nil => rfl
  | cons c cs ih =>
    rw [List.takeWhile_cons]
    simp only [h c (by simp), if_true]
    rw [ih (fun y hy => h y (by simp [hy]))]

theorem trimChars_all_neg (l : List Char) (h : ∀ c ∈ l, isSpaceChar c = false) :
    trimChars l = l := by
  unfold trimChars
  rw [dropWhile_all_neg _ l h,
    dropWhile_all_neg _ l.reverse (fun c hc => h c (by simpa using hc)),
    List.reverse_reverse]

theorem digitsToNat_append_singleton (xs : List Char) (c : Char) :
    digitsToNat (xs ++ [c]) = 10 * digitsToNat xs + digitVal c := by
  simp [digitsToNat, List.foldl_append]

theorem digitsToNat_rev_map (L : List Nat) (hL : ∀ x ∈ L, x < 10) :
    digitsToNat ((L.map digitChar).reverse) = Nat.ofDigits 10 L := by
  induction L with
  | nil => simp [digitsToNat, Nat.ofDigits]
  | cons d L ih =>
    simp only [List.map_cons, List.reverse_cons]
    rw [digitsToNat_append_singleton, ih (fun x hx => hL x (by simp [hx])),
      digitVal_digitChar, Nat.ofDigits_cons]
    have hd : d % 10 = d := Nat.mod_eq_of_lt (hL d (by simp))
    omega

theorem toList_mk (l : List Char) : (String.mk l).toList = l := rfl

theorem mk_toList (s : String) : String.mk s.toList = s := by
  obtain ⟨d⟩ := s
  rfl

theorem natToStr_toList (m : Nat) : (natToStr m).toList =
    if m = 0 then ['0'] else ((Nat.digits 10 m).map digitChar).reverse := by
  by_cases h : m = 0 <;> simp [natToStr, h, toList_mk]

theorem natToStr_chars (m : Nat) :
    ∀ c ∈ (natToStr m).toList, ∃ k, c = digitChar k := by
  rw [natToStr_toList]
  by_cases h : m = 0
  · simp only [h, if_true, List.mem_singleton]
    intro c hc
    exact ⟨0, by rw [hc]; rfl⟩
  · simp only [h, if_false]
    intro c hc
    rw [List.mem_reverse, List.mem_map] at hc
    obtain ⟨d, _, rfl⟩ := hc
    exact ⟨d, rfl⟩

theorem natToStr_ne_nil (m : Nat) : (natToStr m).toList ≠ [] := by
  rw [natToStr_toList]
  by_cases h : m = 0 <;>
    simp [h, Nat.digits_ne_nil_iff_ne_zero]

theorem digitsToNat_natToStr (m : Nat) : digitsToNat (natToStr m).toList = m := by
  rw [natToStr_toList]
  by_cases h : m = 0
  · rw [if_pos h, h]
    decide
  · rw [if_neg h,
      digitsToNat_rev_map _ (fun x hx => Nat.digits_lt_base (by norm_num) hx)]
    exact Nat.ofDigits_digits 10 m

theorem parseNumChars_digits (t : List Char) (hne : t ≠ [])
    (hd : ∀ c ∈ t, ∃ k, c = digitChar k) :
    parseNumChars t = some (digitsToNat t : Int) := by
  obtain ⟨c0, cs, rfl⟩ : ∃ c0 cs, t = c0 :: cs := by
    cases t with
    | nil => exact absurd rfl hne
    | cons a l => exact ⟨a, l, rfl⟩
  obtain ⟨k0, hk0⟩ := hd c0 (by simp)
  subst hk0
  have htake : (digitChar k0 :: cs).takeWhile (fun c => isDigitChar c) =
      digitChar k0 :: cs :=
    takeWhile_all_pos _ _ (fun c hc => by
      obtain ⟨k, rfl⟩ := hd c hc
      exact isDigitChar_digitChar k)
  have hdrop : (digitChar k0 :: cs).dropWhile (fun c => isDigitChar c) = [] :=
    dropWhile_all_pos _ _ (fun c hc => by
      obtain ⟨k, rfl⟩ := hd c hc
      exact isDigitChar_digitChar k)
  have hbody : numBody (digitChar k0 :: cs) = digitChar k0 :: cs := by
    unfold numBody
    rw [if_neg]
    simp [List.headD_cons, digitChar_ne_dash k0, digitChar_ne_plus k0]
  have hip : numIntPart (digitChar k0 :: cs) = digitChar k0 :: cs := by
    unfold numIntPart
    rw [hbody, htake]
  have hrest : numRest (digitChar k0 :: cs) = [] := by
    unfold numRest
    rw [hbody, hdrop]
  have hok : numOk (digitChar k0 :: cs) = true := by
    unfold numOk
    rw [hrest, hip]
    rfl
  unfold parseNumChars
  rw [hok, if_pos rfl, hip]
  simp [List.headD_cons, digitChar_ne_dash k0]

theorem intToStr_toList_nonneg (n : Int) (h : 0 ≤ n) :
    (intToStr n).toList = (natToStr n.natAbs).toList := by
  unfold intToStr
  rw [if_neg (by omega)]

theorem intToStr_toList_neg (n : Int) (h : n < 0) :
    (intToStr n).toList = '-' :: (natToStr n.natAbs).toList := by
  unfold intToStr
  rw [if_pos h]
  rfl

theorem parseNumOpt_intToStr (n : Int) : parseNumOpt (intToStr n) = some n := by
  have hspace : ∀ c ∈ (natToStr n.natAbs).toList, isSpaceChar c = false := by
    intro c hc
    obtain ⟨k, rfl⟩ := natToStr_chars n.natAbs c hc
    exact isSpaceChar_digitChar k
  have htake := takeWhile_all_pos (fun c => isDigitChar c) (natToStr n.natAbs).toList
    (fun c hc => by
      obtain ⟨k, rfl⟩ := natToStr_chars n.natAbs c hc
      exact isDigitChar_digitChar k)
  have hdrop := dropWhile_all_pos (fun c => isDigitChar c) (natToStr n.natAbs).toList
    (fun c hc => by
      obtain ⟨k, rfl⟩ := natToStr_chars n.natAbs c hc
      exact isDigitChar_digitChar k)
  by_cases hn : n < 0
  · unfold parseNumOpt
    rw [intToStr_toList_neg n hn]
    rw [trimChars_all_neg _ (by
      intro c hc
      rcases List.mem_cons.mp hc with rfl | hc2
      · rfl
      · exact hspace c hc2)]
    have hbody : numBody ('-' :: (natToStr n.natAbs).toList) =
        (natToStr n.natAbs).toList := by
      unfold numBody
      rw [if_pos (by simp)]
      rfl
    have hip : numIntPart ('-' :: (natToStr n.natAbs).toList) =
        (natToStr n.natAbs).toList := by
      unfold numIntPart
      rw [hbody, htake]
    have hrest : numRest ('-' :: (natToStr n.natAbs).toList) = [] := by
      unfold numRest
      rw [hbody, hdrop]
    have hok : numOk ('-' :: (natToStr n.natAbs).toList) = true := by
      unfold numOk
      rw [hrest, hip]
      simp [show (natToStr n.natAbs).data ≠ [] from natToStr_ne_nil n.natAbs]
    unfold parseNumChars
    rw [hok, if_pos rfl, hip]
    rw [if_pos (by rfl)]
    rw [digitsToNat_natToStr]
    congr 1
    omega
  · unfold parseNumOpt
    rw [intToStr_toList_nonneg n (by omega)]
    rw [trimChars_all_neg _ hspace]
    rw [parseNumChars_digits _ (natToStr_ne_nil n.natAbs) (natToStr_chars n.natAbs)]
    rw [digitsToNat_natToStr]
    congr 1
    omega

theorem removeCommas_intToStr (n : Int) : removeCommas (intToStr n) = intToStr n := by
  unfold removeCommas
  have hchars : ∀ c ∈ (intToStr n).toList, c ≠ ',' := by
    intro c hc
    by_cases hn : n < 0
    · rw [intToStr_toList_neg n hn] at hc
      rcases List.mem_cons.mp hc with rfl | hc2
      · decide
      · obtain ⟨k, rfl⟩ := natToStr_chars n.natAbs c hc2
        exact digitChar_ne_comma k
    · rw [intToStr_toList_nonneg n (by omega)] at hc
      obtain ⟨k, rfl⟩ := natToStr_chars n.natAbs c hc
      exact digitChar_ne_comma k
  rw [show (intToStr n).toList.filter (fun c => c ≠ ',') = (intToStr n).toList from ?_]
  · exact mk_toList _
  · rw [List.filter_eq_self]
    intro c hc
    simpa using hchars c hc

theorem coerceCount_intToStr (n : Int) : coerceCount (intToStr n) = n := by
  unfold coerceCount
  rw [removeCommas_intToStr, parseNumOpt_intToStr]
  rfl

theorem parseCompact_bounds (s : String) (y m d : Nat)
    (h : parseCompact s = some (y, m, d)) :
    y ≤ 9999 ∧ 1 ≤ m ∧ m ≤ 12 ∧ 1 ≤ d ∧ d ≤ 31 := by
  unfold parseCompact at h
  split at h
  · split_ifs at h with h1
    simp only [Bool.and_eq_true, decide_eq_true_eq] at h1 h
    obtain ⟨⟨⟨⟨⟨⟨⟨c1, c2⟩, c3⟩, c4⟩, _c5⟩, _c6⟩, _c7⟩, _c8⟩ := h1
    split_ifs at h with h2
    simp only [Option.some.injEq, Prod.mk.injEq] at h
    obtain ⟨hy, hm, hd⟩ := h
    subst hy
    subst hm
    subst hd
    refine ⟨?_, by omega, by omega, by omega, by omega⟩
    have b1 := digitVal_le _ c1
    have b2 := digitVal_le _ c2
    have b3 := digitVal_le _ c3
    have b4 := digitVal_le _ c4
    simp only [digitsToNat, List.foldl_cons, List.foldl_nil]
    omega
  · exact absurd h (by simp)

theorem parseISO_bounds (s : String) (y m d : Nat)
    (h : parseISO s = some (y, m, d)) :
    y ≤ 9999 ∧ 1 ≤ m ∧ m ≤ 12 ∧ 1 ≤ d ∧ d ≤ 31 := by
  unfold parseISO at h
  split at h
  · split_ifs at h with h1
    simp only [Bool.and_eq_true, decide_eq_true_eq] at h1 h
    obtain ⟨⟨⟨⟨⟨⟨⟨⟨⟨_e1, _e2⟩, c1⟩, c2⟩, c3⟩, c4⟩, _c5⟩, _c6⟩, _c7⟩, _c8⟩ := h1
    split_ifs at h with h2
    simp only [Option.some.injEq, Prod.mk.injEq] at h
    obtain ⟨hy, hm, hd⟩ := h
    subst hy
    subst hm
    subst hd
    refine ⟨?_, by omega, by omega, by omega, by omega⟩
    have b1 := digitVal_le _ c1
    have b2 := digitVal_le _ c2
    have b3 := digitVal_le _ c3
    have b4 := digitVal_le _ c4
    simp only [digitsToNat, List.foldl_cons, List.foldl_nil]
    omega
  · exact absurd h (by simp)

theorem renderISO_toList (y m d : Nat) : (renderISO y m d).toList =
    [digitChar (y / 1000), digitChar (y / 100), digitChar (y / 10), digitChar y, '-',
     digitChar (m / 10), digitChar m, '-', digitChar (d / 10), digitChar d] := rfl

theorem parseISO_renderISO (y m d : Nat) (hy : y ≤ 9999) (hm1 : 1 ≤ m) (hm2 : m ≤ 12)
    (hd1 : 1 ≤ d) (hd2 : d ≤ 31) : parseISO (renderISO y m d) = some (y, m, d) := by
  have hyv : digitsToNat [digitChar (y / 1000), digitChar (y / 100),
      digitChar (y / 10), digitChar y] = y := by
    simp [digitsToNat, digitVal_digitChar]
    omega
  have hmv : digitsToNat [digitChar (m / 10), digitChar m] = m := by
    simp [digitsToNat, digitVal_digitChar]
    omega
  have hdv : digitsToNat [digitChar (d / 10), digitChar d] = d := by
    simp [digitsToNat, digitVal_digitChar]
    omega
  unfold parseISO
  rw [renderISO_toList]
  simp [isDigitChar_digitChar, hyv, hmv, hdv, hm1, hm2, hd1, hd2]

theorem parseCompact_renderISO (y m d : Nat) :
    parseCompact (renderISO y m d) = none := rfl

theorem dateOK_coerceDate (s : String) : DateOK (coerceDate s) := by
  unfold coerceDate
  cases hc : parseCompact s with
  | some v =>
    rcases v with ⟨y, m, d⟩
    have hb := parseCompact_bounds s y m d hc
    exact Or.inr ⟨y, m, d, hb.1, hb.2.1, hb.2.2.1, hb.2.2.2.1, hb.2.2.2.2, rfl⟩
  | none =>
    cases hi : parseISO s with
    | some v =>
      rcases v with ⟨y, m, d⟩
      have hb := parseISO_bounds s y m d hi
      exact Or.inr ⟨y, m, d, hb.1, hb.2.1, hb.2.2.1, hb.2.2.2.1, hb.2.2.2.2, rfl⟩
    | none => exact Or.inl rfl

theorem coerceDate_roundtrip (c : Cell) (h : DateOK c) :
    coerceDate (cellToStr c) = c := by
  rcases h with rfl | ⟨y, m, d, hy, hm1, hm2, hd1, hd2, rfl⟩
  · decide
  · show coerceDate (renderISO y m d) = Cell.date y m d
    unfold coerceDate
    rw [parseCompact_renderISO y m d, parseISO_renderISO y m d hy hm1 hm2 hd1 hd2]

/-! ## Table-step lemmas for the normalizer -/

theorem zipWith_named_self (p : String → Bool) (f : Cell → Cell) :
    ∀ (cols : List String) (row : List Cell),
    row.length ≤ cols.length →
    (∀ i, i < row.length → p (cols.getD i "") = true →
      f (row.getD i Cell.nan) = row.getD i Cell.nan) →
    List.zipWith (fun name c => if p name then f c else c) cols row = row := by
  intro cols
  induction cols with
  | nil =>
    intro row hlen _
    cases row with
    | nil => rfl
    | cons c cs => simp at hlen
  | cons n ns ih =>
    intro row hlen hid
    cases row with
    | nil => rfl
    | cons c cs =>
      simp only [List.zipWith_cons_cons]
      congr 1
      · by_cases hp : p n = true
        · have h0 := hid 0 (by simp) (by simpa using hp)
          simpa [hp] using h0
        · simp [hp]
      · exact ih cs (by simpa using hlen)
          (fun i hi hp => hid (i + 1) (by simpa using hi) (by simpa using hp))

theorem zipWith_named_getD (p : String → Bool) (f : Cell → Cell)
    (cols : List String) (row : List Cell) (i : Nat)
    (hi : i < (List.zipWith (fun name c => if p name then f c else c) cols row).length) :
    (List.zipWith (fun name c => if p name then f c else c) cols row).getD i Cell.nan =
      if p (cols.getD i "") then f (row.getD i Cell.nan)
      else row.getD i Cell.nan := by
  have h1 : i < cols.length := by
    simp only [List.length_zipWith] at hi
    omega
  have h2 : i < row.length := by
    simp only [List.length_zipWith] at hi
    omega
  rw [List.getD_eq_getElem _ _ hi, List.getElem_zipWith,
    List.getD_eq_getElem _ _ h1, List.getD_eq_getElem _ _ h2]

theorem mapNamedCols_cols (p : String → Bool) (f : Cell → Cell) (t : Table) :
    (mapNamedCols p f t).cols = t.cols := rfl

theorem rowsFit_mapNamedCols (p : String → Bool) (f : Cell → Cell) (t : Table) :
    RowsFit (mapNamedCols p f t) := by
  intro r hr
  simp only [mapNamedCols] at hr ⊢
  obtain ⟨r0, _, rfl⟩ := List.mem_map.mp hr
  simp only [List.length_zipWith]
  omega

theorem cellsAt_mapNamedCols_self (name : String) (f : Cell → Cell) (t : Table)
    (P : Cell → Prop) (hf : ∀ c, P (f c)) :
    CellsAt (mapNamedCols (fun n => n = name) f t) name P := by
  intro r hr i hi hcol
  simp only [mapNamedCols] at hr
  obtain ⟨r0, _, rfl⟩ := List.mem_map.mp hr
  rw [zipWith_named_getD _ _ _ _ _ hi]
  rw [if_pos (by simpa using hcol)]
  exact hf _

theorem cellsAt_mapNamedCols_other (name other : String) (f : Cell → Cell)
    (t : Table) (P : Cell → Prop) (hno : name ≠ other) (h : CellsAt t name P) :
    CellsAt (mapNamedCols (fun n => n = other) f t) name P := by
  intro r hr i hi hcol
  rw [mapNamedCols_cols] at hcol
  simp only [mapNamedCols] at hr
  obtain ⟨r0, hr0, rfl⟩ := List.mem_map.mp hr
  have h2 : i < r0.length := by
    simp only [List.length_zipWith] at hi
    omega
  have hcol2 : t.cols[i]?.getD "" = name := by simpa using hcol
  rw [zipWith_named_getD _ _ _ _ _ hi]
  rw [if_neg (by simp [hcol2, hno])]
  exact h r0 hr0 i h2 hcol

theorem dateStep_cols (t : Table) : (dateStep t).cols = t.cols := by
  unfold dateStep
  split <;> rfl

theorem numColStep_cols (col : String) (t : Table) :
    (numColStep col t).cols = t.cols := by
  unfold numColStep
  split <;> rfl

theorem strColStep_cols (col : String) (t : Table) :
    (strColStep col t).cols = t.cols := by
  unfold strColStep
  split <;> rfl

theorem normalize_cols (t : Table) :
    (normalize_df t).cols = (splitStep (stripStep t)).cols.map canonName := by
  unfold normalize_df
  rw [strColStep_cols, strColStep_cols, numColStep_cols, numColStep_cols, dateStep_cols]
  rfl

theorem rowsFit_dateStep (t : Table) (h : RowsFit t) : RowsFit (dateStep t) := by
  unfold dateStep
  split
  · exact rowsFit_mapNamedCols _ _ _
  · exact h

theorem rowsFit_dateStep_of_contains (t : Table)
    (h : t.cols.contains "date" = true) : RowsFit (dateStep t) := by
  unfold dateStep
  rw [if_pos h]
  exact rowsFit_mapNamedCols _ _ _

theorem rowsFit_numColStep (col : String) (t : Table) (h : RowsFit t) :
    RowsFit (numColStep col t) := by
  unfold numColStep
  split
  · exact rowsFit_mapNamedCols _ _ _
  · exact h

theorem rowsFit_numColStep_of_contains (col : String) (t : Table)
    (h : t.cols.contains col = true) : RowsFit (numColStep col t) := by
  unfold numColStep
  rw [if_pos h]
  exact rowsFit_mapNamedCols _ _ _

theorem rowsFit_strColStep (col : String) (t : Table) (h : RowsFit t) :
    RowsFit (strColStep col t) := by
  unfold strColStep
  split
  · exact rowsFit_mapNamedCols _ _ _
  · exact h

theorem rowsFit_strColStep_of_contains (col : String) (t : Table)
    (h : t.cols.contains col = true) : RowsFit (strColStep col t) := by
  unfold strColStep
  rw [if_pos h]
  exact rowsFit_mapNamedCols _ _ _

theorem cellsAt_dateStep (t : Table) (h : t.cols.contains "date" = true) :
    CellsAt (dateStep t) "date" DateOK := by
  unfold dateStep
  rw [if_pos h]
  exact cellsAt_mapNamedCols_self _ _ _ _ (fun c => dateOK_coerceDate _)

theorem cellsAt_numColStep (col : String) (t : Table)
    (h : t.cols.contains col = true) : CellsAt (numColStep col t) col NumOK := by
  unfold numColStep
  rw [if_pos h]
  exact cellsAt_mapNamedCols_self _ _ _ _ (fun c => ⟨coerceCount (cellToStr c), rfl⟩)

theorem cellsAt_strColStep (col : String) (t : Table)
    (h : t.cols.contains col = true) : CellsAt (strColStep col t) col StrOK := by
  unfold strColStep
  rw [if_pos h]
  exact cellsAt_mapNamedCols_self _ _ _ _ (fun c => ⟨cellToStr c, rfl⟩)

theorem cellsAt_dateStep_preserve (t : Table) (name : String) (P : Cell → Prop)
    (hne : name ≠ "date") (h : CellsAt t name P) : CellsAt (dateStep t) name P := by
  unfold dateStep
  split
  · exact cellsAt_mapNamedCols_other _ _ _ _ _ hne h
  · exact h

theorem cellsAt_numColStep_preserve (col : String) (t : Table) (name : String)
    (P : Cell → Prop) (hne : name ≠ col) (h : CellsAt t name P) :
    CellsAt (numColStep col t) name P := by
  unfold numColStep
  split
  · exact cellsAt_mapNamedCols_other _ _ _ _ _ hne h
  · exact h

theorem cellsAt_strColStep_preserve (col : String) (t : Table) (name : String)
    (P : Cell → Prop) (hne : name ≠ col) (h : CellsAt t name P) :
    CellsAt (strColStep col t) name P := by
  unfold strColStep
  split
  · exact cellsAt_mapNamedCols_other _ _ _ _ _ hne h
  · exact h

theorem cellsAt_of_not_contains (t : Table) (name : String) (P : Cell → Prop)
    (hne : name ≠ "") (h : t.cols.contains name = false) : CellsAt t name P := by
  intro r _ i hi hcol
  by_cases hlt : i < t.cols.length
  · have hmem : t.cols.getD i "" ∈ t.cols := by
      rw [List.getD_eq_getElem _ _ hlt]
      exact List.getElem_mem hlt
    rw [hcol] at hmem
    rw [List.contains_eq_any_beq] at h
    simp at h
    exact absurd rfl (h name hmem)
  · have hdef : t.cols.getD i "" = "" := List.getD_eq_default _ _ (by omega)
    rw [hcol] at hdef
    exact absurd hdef hne

/-! ## Identity of the normalizer steps on already-normalized tables -/

theorem dateStep_id (t : Table)
    (hfit : t.cols.contains "date" = true → RowsFit t)
    (hcells : CellsAt t "date" DateOK) : dateStep t = t := by
  unfold dateStep
  split
  · rename_i hc
    obtain ⟨cols, rows⟩ := t
    simp only [mapNamedCols]
    congr 1
    apply mapSelf
    intro r hr
    apply zipWith_named_self
    · exact hfit hc r hr
    · intro i hi hp
      have hname : cols.getD i "" = "date" := by simpa using hp
      exact coerceDate_roundtrip _ (hcells r hr i hi hname)
  · rfl

theorem numColStep_id (col : String) (t : Table)
    (hfit : t.cols.contains col = true → RowsFit t)
    (hcells : CellsAt t col NumOK) : numColStep col t = t := by
  unfold numColStep
  split
  · rename_i hc
    obtain ⟨cols, rows⟩ := t
    simp only [mapNamedCols]
    congr 1
    apply mapSelf
    intro r hr
    apply zipWith_named_self
    · exact hfit hc r hr
    · intro i hi hp
      have hname : cols.getD i "" = col := by simpa using hp
      obtain ⟨k, hk⟩ := hcells r hr i hi hname
      rw [hk]
      show Cell.num (coerceCount (intToStr k)) = Cell.num k
      rw [coerceCount_intToStr]
  · rfl

theorem strColStep_id (col : String) (t : Table)
    (hfit : t.cols.contains col = true → RowsFit t)
    (hcells : CellsAt t col StrOK) : strColStep col t = t := by
  unfold strColStep
  split
  · rename_i hc
    obtain ⟨cols, rows⟩ := t
    simp only [mapNamedCols]
    congr 1
    apply mapSelf
    intro r hr
    apply zipWith_named_self
    · exact hfit hc r hr
    · intro i hi hp
      have hname : cols.getD i "" = col := by simpa using hp
      obtain ⟨x, hx⟩ := hcells r hr i hi hname
      rw [hx]
      rfl
  · rfl

theorem stripStep_id (t : Table) (h : ∀ c ∈ t.cols, stripStr c = c) :
    stripStep t = t := by
  obtain ⟨cols, rows⟩ := t
  unfold stripStep
  congr 1
  exact mapSelf _ _ h

theorem renameStep_id (t : Table) (h : ∀ c ∈ t.cols, canonName c = c) :
    renameStep t = t := by
  obtain ⟨cols, rows⟩ := t
  unfold renameStep
  congr 1
  exact mapSelf _ _ h

theorem splitStep_id (t : Table)
    (h : (decide (t.cols.length = 1) && hasSubStr "\t" (t.cols.getD 0 "")) = false) :
    splitStep t = t := by
  unfold splitStep
  rw [if_neg (by simp_all)]

/-! ## The normalizer's output columns: canonical-name fixedpoint, no tabs -/

theorem canonName_mem (c : String) : canonName c = "date" ∨ canonName c = "line" ∨
    canonName c = "station" ∨ canonName c = "on" ∨ canonName c = "off" ∨
    canonName c = c := by
  unfold canonName
  split_ifs <;> simp

theorem canonName_idem (c : String) : canonName (canonName c) = canonName c := by
  rcases canonName_mem c with h | h | h | h | h | h <;> rw [h]
  · decide
  · decide
  · decide
  · decide
  · decide
  · rw [h]

theorem canonName_noTab (c : String) (h : hasSubStr "\t" c = false) :
    hasSubStr "\t" (canonName c) = false := by
  rcases canonName_mem c with h1 | h1 | h1 | h1 | h1 | h1 <;> rw [h1]
  · decide
  · decide
  · decide
  · decide
  · decide
  · exact h

theorem splitTab_cons (c : Char) (cs : List Char) :
    splitTab (c :: cs) = if c = '\t' then [] :: splitTab cs
      else match splitTab cs with
        | [] => [[c]]
        | h :: t => (c :: h) :: t := rfl

theorem splitTab_ne_nil (cs : List Char) : splitTab cs ≠ [] := by
  induction cs with
  | nil => simp [splitTab]
  | cons c cs ih =>
    rw [splitTab_cons]
    by_cases hc : c = '\t'
    · simp [hc]
    · rw [if_neg hc]
      cases hsp : splitTab cs with
      | nil => exact absurd hsp ih
      | cons h t => simp

theorem mem_splitTab_noTab (cs : List Char) : ∀ p ∈ splitTab cs, '\t' ∉ p := by
  induction cs with
  | nil =>
    intro p hp
    simp only [splitTab, List.foldr_nil, List.mem_singleton] at hp
    subst hp
    simp
  | cons c cs ih =>
    intro p hp
    rw [splitTab_cons] at hp
    by_cases hc : c = '\t'
    · rw [if_pos hc] at hp
      rcases List.mem_cons.mp hp with rfl | hp2
      · simp
      · exact ih p hp2
    · rw [if_neg hc] at hp
      cases hsp : splitTab cs with
      | nil => exact absurd hsp (splitTab_ne_nil cs)
      | cons h t =>
        rw [hsp] at hp
        rcases List.mem_cons.mp hp with rfl | hp2
        · intro hmem
          rcases List.mem_cons.mp hmem with heq | hmem2
          · exact hc heq.symm
          · exact ih h (by rw [hsp]; simp) hmem2
        · exact ih p (by rw [hsp]; simp [hp2])

theorem hasSub_single (c : Char) (l : List Char) (h : c ∉ l) :
    hasSub [c] l = false := by
  induction l with
  | nil => rfl
  | cons x xs ih =>
    have hcx : ¬(c = x) := fun hh => h (by rw [hh]; simp)
    have hcxs : c ∉ xs := fun hh => h (by simp [hh])
    simp [hasSub, leadsWith, hcx, ih hcxs]

theorem hasSubStr_tab_mk (p : List Char) :
    hasSubStr "\t" (String.mk p) = hasSub ['\t'] p := rfl

theorem splitStep_cols_noTab (t : Table)
    (hcond : (decide (t.cols.length = 1) && hasSubStr "\t" (t.cols.getD 0 "")) = true) :
    ∀ s ∈ (splitStep t).cols, hasSubStr "\t" s = false := by
  intro s hs
  unfold splitStep at hs
  rw [if_pos hcond] at hs
  simp only [List.mem_map] at hs
  obtain ⟨cell, hcell, rfl⟩ := hs
  set parts := t.rows.map (fun r => splitTab (cellToStr (r.getD 0 Cell.nan)).toList)
    with hparts
  cases hpp : parts with
  | nil => simp [hpp] at hcell
  | cons p0 ps =>
    rw [hpp] at hcell
    simp only [List.map_cons, List.headD_cons] at hcell
    rcases List.mem_append.mp hcell with hm | hm
    · obtain ⟨part, hpart, rfl⟩ := List.mem_map.mp hm
      have hp0mem : p0 ∈ parts := by rw [hpp]; simp
      rw [hparts] at hp0mem
      obtain ⟨r, _, hfr⟩ := List.mem_map.mp hp0mem
      rw [← hfr] at hpart
      have hnotab : '\t' ∉ part := mem_splitTab_noTab _ part hpart
      show hasSubStr "\t" (String.mk part) = false
      rw [hasSubStr_tab_mk]
      exact hasSub_single '\t' part hnotab
    · have hnan : cell = Cell.nan := List.eq_of_mem_replicate hm
      subst hnan
      decide

theorem norm_cols_canonFixed (t : Table) :
    ∀ c ∈ (normalize_df t).cols, canonName c = c := by
  intro c hc
  rw [normalize_cols] at hc
  obtain ⟨c0, _, rfl⟩ := List.mem_map.mp hc
  exact canonName_idem c0

theorem norm_split_cond_false (t : Table) :
    (decide ((normalize_df t).cols.length = 1) &&
      hasSubStr "\t" ((normalize_df t).cols.getD 0 "")) = false := by
  by_cases hlen : (normalize_df t).cols.length = 1
  · have hlen3 : (splitStep (stripStep t)).cols.length = 1 := by
      rw [normalize_cols] at hlen
      simpa using hlen
    have h0 : (normalize_df t).cols.getD 0 "" =
        canonName ((splitStep (stripStep t)).cols.getD 0 "") := by
      rw [normalize_cols]
      rw [List.getD_eq_getElem _ _ (by simp [hlen3]), List.getElem_map,
        List.getD_eq_getElem _ _ (by omega)]
    have hc3 : hasSubStr "\t" ((splitStep (stripStep t)).cols.getD 0 "") = false := by
      by_cases hcond : (decide ((stripStep t).cols.length = 1) &&
          hasSubStr "\t" ((stripStep t).cols.getD 0 "")) = true
      · have hmem : (splitStep (stripStep t)).cols.getD 0 "" ∈
            (splitStep (stripStep t)).cols := by
          rw [List.getD_eq_getElem _ _ (by omega)]
          exact List.getElem_mem (by omega)
        exact splitStep_cols_noTab (stripStep t) hcond _ hmem
      · have hid : splitStep (stripStep t) = stripStep t :=
          splitStep_id _ (by simpa using hcond)
        rw [hid] at hlen3 ⊢
        simp only [Bool.and_eq_true, decide_eq_true_eq] at hcond
        rcases Bool.eq_false_or_eq_true
          (hasSubStr "\t" ((stripStep t).cols.getD 0 "")) with ht | hf
        · exact absurd ⟨hlen3, ht⟩ hcond
        · exact hf
    rw [h0, canonName_noTab _ hc3]
    simp
  · simp [hlen]

/-! ## Invariants of the normalizer's output rows -/

theorem norm_invariant_date (t : Table)
    (hc : (normalize_df t).cols.contains "date" = true) :
    RowsFit (normalize_df t) ∧ CellsAt (normalize_df t) "date" DateOK := by
  have hcols : (normalize_df t).cols =
      (renameStep (splitStep (stripStep t))).cols := by
    unfold normalize_df
    rw [strColStep_cols, strColStep_cols, numColStep_cols, numColStep_cols,
      dateStep_cols]
  have hc4 : (renameStep (splitStep (stripStep t))).cols.contains "date" = true := by
    rw [← hcols]
    exact hc
  have h5f : RowsFit (dateStep (renameStep (splitStep (stripStep t)))) :=
    rowsFit_dateStep_of_contains _ hc4
  have h5c : CellsAt (dateStep (renameStep (splitStep (stripStep t)))) "date" DateOK :=
    cellsAt_dateStep _ hc4
  unfold normalize_df
  constructor
  · exact rowsFit_strColStep _ _ (rowsFit_strColStep _ _
      (rowsFit_numColStep _ _ (rowsFit_numColStep _ _ h5f)))
  · apply cellsAt_strColStep_preserve "line" _ "date" DateOK (by decide)
    apply cellsAt_strColStep_preserve "station" _ "date" DateOK (by decide)
    apply cellsAt_numColStep_preserve "off" _ "date" DateOK (by decide)
    apply cellsAt_numColStep_preserve "on" _ "date" DateOK (by decide)
    exact h5c

theorem norm_invariant_on (t : Table)
    (hc : (normalize_df t).cols.contains "on" = true) :
    RowsFit (normalize_df t) ∧ CellsAt (normalize_df t) "on" NumOK := by
  have hcols : (normalize_df t).cols =
      (dateStep (renameStep (splitStep (stripStep t)))).cols := by
    unfold normalize_df
    rw [strColStep_cols, strColStep_cols, numColStep_cols, numColStep_cols]
  have hc5 : (dateStep (renameStep (splitStep (stripStep t)))).cols.contains
      "on" = true := by
    rw [← hcols]
    exact hc
  have h6f : RowsFit (numColStep "on" (dateStep (renameStep (splitStep (stripStep t))))) :=
    rowsFit_numColStep_of_contains _ _ hc5
  have h6c : CellsAt (numColStep "on" (dateStep (renameStep (splitStep (stripStep t)))))
      "on" NumOK := cellsAt_numColStep _ _ hc5
  unfold normalize_df
  constructor
  · exact rowsFit_strColStep _ _ (rowsFit_strColStep _ _
      (rowsFit_numColStep _ _ h6f))
  · apply cellsAt_strColStep_preserve "line" _ "on" NumOK (by decide)
    apply cellsAt_strColStep_preserve "station" _ "on" NumOK (by decide)
    apply cellsAt_numColStep_preserve "off" _ "on" NumOK (by decide)
    exact h6c

theorem norm_invariant_off (t : Table)
    (hc : (normalize_df t).cols.contains "off" = true) :
    RowsFit (normalize_df t) ∧ CellsAt (normalize_df t) "off" NumOK := by
  have hcols : (normalize_df t).cols =
      (numColStep "on" (dateStep (renameStep (splitStep (stripStep t))))).cols := by
    unfold normalize_df
    rw [strColStep_cols, strColStep_cols, numColStep_cols]
  have hc6 : (numColStep "on" (dateStep (renameStep
      (splitStep (stripStep t))))).cols.contains "off" = true := by
    rw [← hcols]
    exact hc
  have h7f : RowsFit (numColStep "off" (numColStep "on" (dateStep (renameStep
      (splitStep (stripStep t)))))) := rowsFit_numColStep_of_contains _ _ hc6
  have h7c : CellsAt (numColStep "off" (numColStep "on" (dateStep (renameStep
      (splitStep (stripStep t)))))) "off" NumOK := cellsAt_numColStep _ _ hc6
  unfold normalize_df
  constructor
  · exact rowsFit_strColStep _ _ (rowsFit_strColStep _ _ h7f)
  · apply cellsAt_strColStep_preserve "line" _ "off" NumOK (by decide)
    apply cellsAt_strColStep_preserve "station" _ "off" NumOK (by decide)
    exact h7c

theorem norm_invariant_station (t : Table)
    (hc : (normalize_df t).cols.contains "station" = true) :
    RowsFit (normalize_df t) ∧ CellsAt (normalize_df t) "station" StrOK := by
  have hcols : (normalize_df t).cols =
      (numColStep "off" (numColStep "on" (dateStep (renameStep
        (splitStep (stripStep t)))))).cols := by
    unfold normalize_df
    rw [strColStep_cols, strColStep_cols]
  have hc7 : (numColStep "off" (numColStep "on" (dateStep (renameStep
      (splitStep (stripStep t)))))).cols.contains "station" = true := by
    rw [← hcols]
    exact hc
  have h8f : RowsFit (strColStep "station" (numColStep "off" (numColStep "on"
      (dateStep (renameStep (splitStep (stripStep t))))))) :=
    rowsFit_strColStep_of_contains _ _ hc7
  have h8c : CellsAt (strColStep "station" (numColStep "off" (numColStep "on"
      (dateStep (renameStep (splitStep (stripStep t))))))) "station" StrOK :=
    cellsAt_strColStep _ _ hc7
  unfold normalize_df
  constructor
  · exact rowsFit_strColStep _ _ h8f
  · exact cellsAt_strColStep_preserve "line" _ "station" StrOK (by decide) h8c

theorem norm_invariant_line (t : Table)
    (hc : (normalize_df t).cols.contains "line" = true) :
    RowsFit (normalize_df t) ∧ CellsAt (normalize_df t) "line" StrOK := by
  have hcols : (normalize_df t).cols =
      (strColStep "station" (numColStep "off" (numColStep "on" (dateStep (renameStep
        (splitStep (stripStep t))))))).cols := by
    unfold normalize_df
    rw [strColStep_cols]
  have hc8 : (strColStep "station" (numColStep "off" (numColStep "on" (dateStep
      (renameStep (splitStep (stripStep t))))))).cols.contains "line" = true := by
    rw [← hcols]
    exact hc
  unfold normalize_df
  exact ⟨rowsFit_strColStep_of_contains _ _ hc8, cellsAt_strColStep _ _ hc8⟩

/-! ## C3: idempotence of the normalizer -/

/-- C3 counterexample: a frame whose single tab-bearing column label forces
the tab-split repair, and whose promoted header row carries a field with a
trailing space.  The first normalization leaves that header untrimmed (the
label strip of line 66 ran before the split), so a second normalization
strips it and produces a different table. -/
theorem claim_C3_counterexample :
    normalize_df (normalize_df (Table.mk ["a\tb"] [[Cell.str "x \ty"]])) ≠
      normalize_df (Table.mk ["a\tb"] [[Cell.str "x \ty"]]) := by
  decide

/-- C3 amended: `normalize_df` is idempotent on every table whose normalized
output has whitespace-trimmed column labels — which is every table except
those taking the single-column tab-split repair with untrimmed fields in the
promoted header row; on those the second pass additionally trims the labels. -/
theorem claim_C3 (t : Table)
    (h : ∀ c ∈ (normalize_df t).cols, stripStr c = c) :
    normalize_df (normalize_df t) = normalize_df t := by
  have hstrip : stripStep (normalize_df t) = normalize_df t :=
    stripStep_id _ h
  have hsplit : splitStep (normalize_df t) = normalize_df t :=
    splitStep_id _ (norm_split_cond_false t)
  have hrename : renameStep (normalize_df t) = normalize_df t :=
    renameStep_id _ (norm_cols_canonFixed t)
  have hdate : dateStep (normalize_df t) = normalize_df t := by
    by_cases hc : (normalize_df t).cols.contains "date" = true
    · exact dateStep_id _ (fun _ => (norm_invariant_date t hc).1)
        (norm_invariant_date t hc).2
    · exact dateStep_id _ (fun hcc => absurd hcc hc)
        (cellsAt_of_not_contains _ _ _ (by decide) (by simpa using hc))
  have hon : numColStep "on" (normalize_df t) = normalize_df t := by
    by_cases hc : (normalize_df t).cols.contains "on" = true
    · exact numColStep_id _ _ (fun _ => (norm_invariant_on t hc).1)
        (norm_invariant_on t hc).2
    · exact numColStep_id _ _ (fun hcc => absurd hcc hc)
        (cellsAt_of_not_contains _ _ _ (by decide) (by simpa using hc))
  have hoff : numColStep "off" (normalize_df t) = normalize_df t := by
    by_cases hc : (normalize_df t).cols.contains "off" = true
    · exact numColStep_id _ _ (fun _ => (norm_invariant_off t hc).1)
        (norm_invariant_off t hc).2
    · exact numColStep_id _ _ (fun hcc => absurd hcc hc)
        (cellsAt_of_not_contains _ _ _ (by decide) (by simpa using hc))
  have hstation : strColStep "station" (normalize_df t) = normalize_df t := by
    by_cases hc : (normalize_df t).cols.contains "station" = true
    · exact strColStep_id _ _ (fun _ => (norm_invariant_station t hc).1)
        (norm_invariant_station t hc).2
    · exact strColStep_id _ _ (fun hcc => absurd hcc hc)
        (cellsAt_of_not_contains _ _ _ (by decide) (by simpa using hc))
  have hline : strColStep "line" (normalize_df t) = normalize_df t := by
    by_cases hc : (normalize_df t).cols.contains "line" = true
    · exact strColStep_id _ _ (fun _ => (norm_invariant_line t hc).1)
        (norm_invariant_line t hc).2
    · exact strColStep_id _ _ (fun hcc => absurd hcc hc)
        (cellsAt_of_not_contains _ _ _ (by decide) (by simpa using hc))
  show strColStep "line" (strColStep "station" (numColStep "off" (numColStep "on"
    (dateStep (renameStep (splitStep (stripStep (normalize_df t)))))))) =
      normalize_df t
  rw [hstrip, hsplit, hrename, hdate, hon, hoff, hstation, hline]

/-- Witness for C3: a well-formed Korean-headed table; its normalized labels
are trimmed, so normalizing twice changes nothing. -/
theorem claim_C3_witness :
    normalize_df (normalize_df (Table.mk ["사용일자", "승차총승객수"]
      [[Cell.str "20251001", Cell.str "1,234"]])) =
      normalize_df (Table.mk ["사용일자", "승차총승객수"]
        [[Cell.str "20251001", Cell.str "1,234"]]) :=
  claim_C3 (Table.mk ["사용일자", "승차총승객수"]
    [[Cell.str "20251001", Cell.str "1,234"]]) (by decide)

/-! ## C5: the normalized count columns hold integers -/

/-- C5 counterexample: a negative numeral in the boarding-count column
survives normalization with its sign — the coercion never enforces
non-negativity, so "after normalization every count is non-negative" fails. -/
theorem claim_C5_counterexample :
    (normalize_df (Table.mk ["승차총승객수"] [[Cell.str "-3"]])).rows =
      [[Cell.num (-3)]] ∧ ¬(0 ≤ (-3 : Int)) := by
  decide

/-- C5 amended: after normalization every cell in the count columns `on` and
`off` is an integer (not necessarily non-negative: signed numerals keep
their sign); thousands separators are stripped and unparseable or missing
values become 0, as the concrete coercions show. -/
theorem claim_C5 (t : Table) :
    CellsAt (normalize_df t) "on" NumOK ∧
    CellsAt (normalize_df t) "off" NumOK ∧
    coerceCount "1,234" = 1234 ∧ coerceCount "" = 0 ∧
    coerceCount "abc" = 0 ∧ coerceCount "nan" = 0 := by
  refine ⟨?_, ?_, by decide, by decide, by decide, by decide⟩
  · by_cases hc : (normalize_df t).cols.contains "on" = true
    · exact (norm_invariant_on t hc).2
    · exact cellsAt_of_not_contains _ _ _ (by decide) (by simpa using hc)
  · by_cases hc : (normalize_df t).cols.contains "off" = true
    · exact (norm_invariant_off t hc).2
    · exact cellsAt_of_not_contains _ _ _ (by decide) (by simpa using hc)

/-- Witness for C5 on a concrete one-column table. -/
theorem claim_C5_witness :
    CellsAt (normalize_df (Table.mk ["승차총승객수"] [[Cell.str "1,234"]]))
      "on" NumOK :=
  (claim_C5 (Table.mk ["승차총승객수"] [[Cell.str "1,234"]])).1

end Spec2Proof
